import Mathlib

/-!
# Logitech G600 controller: event capture and dispatch

A shallow embedding of `src/g600.c` (namespace `G600`) and of its C++ variant
`src/g600.cpp` (namespace `G600Controller`), which repeats the locator, the event loop
and the dispatch step as members of a class and adds a destructor.

* C strings are lists of characters: the bytes before the terminating NUL, so the
  end of the list stands for the terminator.
* `int`, `ssize_t` and `size_t` values are integers or naturals; no arithmetic of the
  program leaves the range of its type.
* Arrays are lists.  An access outside an array, or a pointer outside its object, has
  no defined behaviour in C: the embedding returns `none` for it, and every function
  that can reach such an access returns an `Option`.
* The operating system is an explicit environment (`Env`): the outcome of `opendir` /
  `readdir`, of `open`, of the grab `ioctl`, of the successive `read` calls and of
  `system`.  What the program does to the outside is a list of `Effect`s.
-/

namespace G600

/-! ## Strings -/

/-- A C string: the characters before the terminating NUL. -/
abbrev CString := List Char

/-- The libc `strlen`. -/
def strlen (s : CString) : Nat := s.length

/-- The libc `strncmp`: compares at most `n` characters, a string that ends first is
the smaller one.  Only the sign of a non-zero result is specified by C. -/
def strncmp : CString → CString → Nat → Int
  | _, _, 0 => 0
  | [], [], _ + 1 => 0
  | [], _ :: _, _ + 1 => -1
  | _ :: _, [], _ + 1 => 1
  | a :: s1, b :: s2, n + 1 =>
    if a = b then strncmp s1 s2 n else if a.toNat < b.toNat then -1 else 1

/-- The pointer `s + off` into the string `s`.  It is valid from the first character up
to the terminating NUL; `off` is the mathematical value of the offset, so a negative
`off` is a position before the start of `s`. -/
def ptr_add (s : CString) (off : Int) : Option CString :=
  if 0 ≤ off ∧ off ≤ (strlen s : Int) then some (s.drop off.toNat) else none

/-! ## Constants and tables of `g600.c` -/

def MAX_EVENTS : Nat := 64
def MAX_PATH_LENGTH : Nat := 1024
def KEY_STATE_SIZE : Nat := 256

/-- The type of key events, `EV_KEY` of `<linux/input.h>` (a system header, its value
there is `0x01`). -/
def EV_KEY : Nat := 1

/-- The size of `struct input_event` of `<linux/input.h>` on a 64-bit system: a 16-byte
`struct timeval`, two `__u16` and one `__s32`. -/
def sizeof_input_event : Nat := 24

/-- The capacity of `d_name` in `struct dirent` of `<dirent.h>` is 256 bytes, so an entry
name has at most 255 characters. -/
def NAME_MAX : Nat := 255

def kDir : CString := "/dev/input/by-id/".toList
def kPrefix : CString := "usb-Logitech_Gaming_Mouse_G600_".toList
def kSuffix : CString := "-if01-event-kbd".toList

/-- An array of `const char *` written with designated initialisers `[i] = "..."`: it
has one slot more than the largest designator, and the slots that are not named hold
the null pointer (`none`). -/
def designated (inits : List (Nat × String)) : List (Option CString) :=
  inits.foldl (fun tbl d => tbl.set d.1 (some d.2.toList))
    (List.replicate ((inits.map (fun d => d.1)).foldl max 0 + 1) none)

def downCommands : List (Option CString) :=
  designated [
    (4, ""),
    (5, "xdotool key Page_Down"),
    (79, "xdotool keydown ctrl"),
    (81, "xdotool keydown alt"),
    (75, "xdotool keydown shift")]

def upCommands : List (Option CString) :=
  designated [
    (79, "xdotool keyup ctrl"),
    (81, "xdotool keyup alt"),
    (75, "xdotool keyup shift")]

/-! ## The environment and the effects -/

/-- One `struct input_event`; the time stamp is never read by the program.
`type` and `code` are `__u16`, `value` is `__s32`. -/
structure input_event where
  type : Nat
  code : Nat
  value : Int
deriving DecidableEq, Repr

/-- The outcome of one `read(fd, events, sizeof(events))`: the returned count `n` and
the content of the buffer `events` after the call. -/
structure ReadResult where
  n : Int
  events : List input_event
deriving DecidableEq, Repr

/-- What the program does to the outside, in program order. -/
inductive Effect where
  | printf (text : String)
  | perror (msg : String)
  | opendir (name : CString)
  | closedir
  | openRdonly (path : CString)
  | ioctlGrab (fd : Int)
  | read (fd : Int)
  | close (fd : Int)
  | system (cmd : CString)
deriving DecidableEq, Repr

/-- The operating system as seen by one run of the program. -/
structure Env where
  /-- `opendir(kDir)`: `none` when it returns NULL, else the names `readdir` yields, in
  enumeration order -/
  dir : Option (List CString)
  /-- the value returned by `open(path, O_RDONLY)` -/
  openResult : Int
  /-- the value returned by `ioctl(fd, EVIOCGRAB, 1)` -/
  grabResult : Int
  /-- the successive `read` calls -/
  reads : List ReadResult
  /-- the value returned by `system(cmd)` -/
  system : CString → Int

/-- The commands passed to `system`, in order. -/
def launches : List Effect → List CString
  | [] => []
  | Effect.system cmd :: rest => cmd :: launches rest
  | _ :: rest => launches rest

/-! ## Device locator -/

def starts_with (haystack pfx : CString) : Int :=
  let pfx_length := strlen pfx
  let haystack_length := strlen haystack
  if haystack_length ≥ pfx_length ∧ strncmp haystack pfx pfx_length = 0 then 1 else 0

/-- `haystack_length - suffix_length` is taken as the mathematical difference: where
the `size_t` subtraction would wrap, the pointer is outside the string. -/
def ends_with (haystack suffix : CString) : Option Int :=
  let suffix_length := strlen suffix
  let haystack_length := strlen haystack
  if haystack_length ≥ suffix_length then
    match ptr_add haystack ((haystack_length : Int) - (suffix_length : Int)) with
    | none => none
    | some tail => some (if strncmp tail suffix suffix_length = 0 then 1 else 0)
  else some 0

/-- What `find_g600(path)` leaves behind: the returned code, the caller's buffer
(`none` when it was not written) and the effects. -/
structure FindResult where
  ret : Int
  path : Option CString
  trace : List Effect
deriving DecidableEq, Repr

/-- The `while ((ent = readdir(dir)))` loop of `find_g600` and what follows it. -/
def find_g600_scan : List CString → Option FindResult
  | [] => some ⟨2, none, [Effect.closedir]⟩
  | d_name :: rest =>
    if starts_with d_name kPrefix ≠ 0 then
      match ends_with d_name kSuffix with
      | none => none
      | some e =>
        if e ≠ 0 then
          let path := (kDir ++ d_name).take (MAX_PATH_LENGTH - 1)
          some ⟨0, some path,
            [Effect.printf ("Full path is " ++ String.mk path ++ "\n"), Effect.closedir]⟩
        else find_g600_scan rest
    else find_g600_scan rest

def find_g600 (dir : Option (List CString)) : Option FindResult :=
  match dir with
  | none =>
    some ⟨1, none, [Effect.opendir kDir, Effect.perror "Error opening directory"]⟩
  | some names =>
    (find_g600_scan names).map
      (fun r => { r with trace := Effect.opendir kDir :: r.trace })

/-! ## Key-state tracker and dispatcher -/

/-- The body shared by both transitions, once `cmdToRun` has been read from its table:
`if (cmdToRun && strlen(cmdToRun) > 0) { printf; system; perror on -1; printf }`. -/
def runCommand (system : CString → Int) (cmdToRun : Option CString) : List Effect :=
  match cmdToRun with
  | none => []
  | some cmd =>
    if strlen cmd > 0 then
      [Effect.printf ("Executing: \"" ++ String.mk cmd ++ "\"\n"), Effect.system cmd]
        ++ (if system cmd = -1 then [Effect.perror "Error executing command"] else [])
        ++ [Effect.printf "\n"]
    else []

/-- The body of the `for` loop of `main` for the record `ev = events[i]`, with the
tables as parameters.  `keyStates[scancode]` is read exactly once on every path through
the two conditions (`&&` evaluates it in the first one when `pressed` is non-zero, in
the second one otherwise), before any table is read. -/
def dispatch (system : CString → Int) (down up : List (Option CString))
    (keyStates : List Int) (ev : input_event) : Option (List Int × List Effect) :=
  if ev.type = EV_KEY then
    let pressed := ev.value
    let scancode := ev.code
    match keyStates[scancode]? with
    | none => none
    | some state =>
      if pressed ≠ 0 ∧ state = 0 then
        match down[scancode]? with
        | none => none
        | some cmdToRun => some (keyStates.set scancode 1, runCommand system cmdToRun)
      else if pressed = 0 ∧ state = 1 then
        match up[scancode]? with
        | none => none
        | some cmdToRun => some (keyStates.set scancode 0, runCommand system cmdToRun)
      else some (keyStates, [])
  else some (keyStates, [])

/-- One executed iteration of the `for` loop: the record, the key states before and
after it, and its effects. -/
structure Step where
  ev : input_event
  before : List Int
  after : List Int
  out : List Effect
deriving DecidableEq, Repr

/-- The `for` loop of `main` over the records it visits, in order. -/
def processBatch (system : CString → Int) (down up : List (Option CString)) :
    List Int → List input_event → Option (List Int × List Step)
  | keyStates, [] => some (keyStates, [])
  | keyStates, ev :: rest =>
    match dispatch system down up keyStates ev with
    | none => none
    | some (keyStates1, out) =>
      match processBatch system down up keyStates1 rest with
      | none => none
      | some (keyStates2, steps) => some (keyStates2, ⟨ev, keyStates, keyStates1, out⟩ :: steps)

/-- The effects of a list of steps, in order. -/
def stepsTrace : List Step → List Effect
  | [] => []
  | s :: rest => s.out ++ stepsTrace rest

/-- Where a run of the event loop stands after the reads it was given. -/
structure LoopResult where
  /-- the value returned by the loop; `none` when every given read was consumed and the
  loop is blocked in the next `read` -/
  status : Option Int
  keyStates : List Int
  trace : List Effect
  steps : List Step
deriving DecidableEq, Repr

/-- The `while (1)` loop of `main`.  `n` is positive where it is compared with and
divided by `sizeof(struct input_event)`, so its conversion to `size_t` keeps its value;
the `for` loop visits the first `n / sizeof(struct input_event)` records of the buffer. -/
def event_loop (system : CString → Int) (down up : List (Option CString)) (fd : Int) :
    List Int → List ReadResult → Option LoopResult
  | keyStates, [] => some ⟨none, keyStates, [], []⟩
  | keyStates, r :: rest =>
    if r.n ≤ 0 then
      some ⟨some 2, keyStates,
        [Effect.read fd, Effect.perror "Error reading device", Effect.close fd], []⟩
    else if r.n < ((sizeof_input_event * 2 : Nat) : Int) then
      (event_loop system down up fd keyStates rest).map
        (fun l => { l with trace := Effect.read fd :: l.trace })
    else
      match processBatch system down up keyStates
          (r.events.take (r.n.toNat / sizeof_input_event)) with
      | none => none
      | some (keyStates1, steps) =>
        (event_loop system down up fd keyStates1 rest).map
          (fun l => { l with
            trace := Effect.read fd :: (stepsTrace steps ++ l.trace)
            steps := steps ++ l.steps })

/-- The array `keyStates` as declared: `int keyStates[KEY_STATE_SIZE] = {0}`. -/
def initialKeyStates : List Int := List.replicate KEY_STATE_SIZE 0

/-! ## The program -/

/-- The introductory `printf` calls of `main`. -/
def intro : List Effect :=
  [ Effect.printf "Starting G600 Linux controller.\n\n",
    Effect.printf "It's a good idea to configure G600 with Logitech Gaming Software before running this program:\n",
    Effect.printf " - Assign left, right, middle mouse button and vertical mouse wheel to their normal functions\n",
    Effect.printf " - Assign the G-Shift button to \"G-Shift\"\n",
    Effect.printf " - Assign all other keys (including horizontal mouse wheel) to arbitrary (unique) keyboard keys\n",
    Effect.printf "\n" ]

/-- The suggestion `main` prints for the value `find_error` of `find_g600`. -/
def suggestion (find_error : Int) : List Effect :=
  if find_error = 1 then
    [Effect.printf ("Suggestion: Check whether the directory " ++ String.mk kDir
      ++ " exists and fix it by editing \"g600.c\".\n")]
  else if find_error = 2 then
    [Effect.printf ("Suggestion: Check whether a device with the prefix " ++ String.mk kPrefix
      ++ " exists in " ++ String.mk kDir ++ " and fix it by editing \"g600.c\".\n")]
  else []

/-- What a run of `main` has done: its exit status (`none` while the event loop is still
running), its effects, the array `keyStates` (`none` when the run ends before the array
is declared) and the executed iterations of the `for` loop. -/
structure Run where
  status : Option Int
  trace : List Effect
  keyStates : Option (List Int)
  steps : List Step
deriving DecidableEq, Repr

def sudoHint : Effect :=
  Effect.printf "Suggestion: Maybe a permission is missing. Try running this program with sudo.\n"

/-- The function `main` of `g600.c`, with the two tables as parameters (the program
itself is `main downCommands upCommands`). -/
def main (down up : List (Option CString)) (env : Env) : Option Run :=
  match find_g600 env.dir with
  | none => none
  | some found =>
    if found.ret ≠ 0 then
      some ⟨some 1,
        intro ++ found.trace ++ [Effect.printf "Error: Couldn't find G600 input device.\n"]
          ++ suggestion found.ret ++ [sudoHint],
        none, []⟩
    else
      match found.path with
      | none => none
      | some path =>
        let fd := env.openResult
        if fd < 0 then
          some ⟨some 1,
            intro ++ found.trace
              ++ [Effect.openRdonly path, Effect.perror "Error opening device", sudoHint],
            none, []⟩
        else if env.grabResult < 0 then
          some ⟨some 1,
            intro ++ found.trace
              ++ [Effect.openRdonly path, Effect.ioctlGrab fd,
                  Effect.perror "Error grabbing device", Effect.close fd],
            none, []⟩
        else
          match event_loop env.system down up fd initialKeyStates env.reads with
          | none => none
          | some l =>
            some ⟨l.status,
              intro ++ found.trace
                ++ [Effect.openRdonly path, Effect.ioctlGrab fd,
                    Effect.printf "G600 controller started successfully.\n\n"]
                ++ l.trace,
              some l.keyStates, l.steps⟩

/-! ## Vocabulary of the properties -/

/-- The command configured for scancode `c` in a table: the entry of `c` when it is
neither the null pointer nor the empty string. -/
def configured (table : List (Option CString)) (c : Nat) : Option CString :=
  match table[c]? with
  | some (some cmd) => if cmd = [] then none else some cmd
  | _ => none

/-- The launches caused by scancode `c`: the commands passed to `system` in the
iterations whose record has code `c`, in order. -/
def launchesBy (c : Nat) : List Step → List CString
  | [] => []
  | s :: rest =>
    if s.ev.code = c then launches s.out ++ launchesBy c rest else launchesBy c rest

/-- The number of iterations that take scancode `c` from Up (0) to Down (1). -/
def upDownTransitions (c : Nat) : List Step → Nat
  | [] => 0
  | s :: rest =>
    (if s.before[c]? = some 0 ∧ s.after[c]? = some 1 then 1 else 0)
      + upDownTransitions c rest

/-- The list `A, B, A, B, ...` of length `n`. -/
def alternating (A B : CString) : Nat → List CString
  | 0 => []
  | n + 1 => A :: alternating B A n

/-- The value of the last key record with code `c` in a sequence of records, `none` when
there is no such record. -/
def lastValue (c : Nat) : List input_event → Option Int
  | [] => none
  | e :: rest =>
    match lastValue c rest with
    | some v => some v
    | none => if e.type = EV_KEY ∧ e.code = c then some e.value else none

/-- The records the `for` loop visits over a sequence of reads, in order: none of a short
read, the first `n / sizeof(struct input_event)` records of the buffer of any other
read, up to the first read that fails. -/
def visited : List ReadResult → List input_event
  | [] => []
  | r :: rest =>
    if r.n ≤ 0 then []
    else if r.n < ((sizeof_input_event * 2 : Nat) : Int) then visited rest
    else r.events.take (r.n.toNat / sizeof_input_event) ++ visited rest

/-- The descriptors passed to `close`, in order. -/
def closes : List Effect → List Int
  | [] => []
  | Effect.close fd :: rest => fd :: closes rest
  | _ :: rest => closes rest

/-- Whether an effect is an operation on a device: `open`, the grab `ioctl`, `read` or
`close`. -/
def Effect.onDevice : Effect → Bool
  | Effect.openRdonly _ => true
  | Effect.ioctlGrab _ => true
  | Effect.read _ => true
  | Effect.close _ => true
  | _ => false

/-- What an iteration did to the core: its record, the key states before and after it,
and the commands it launched (the printed text left out). -/
def Step.core (s : Step) : input_event × List Int × List Int × List CString :=
  (s.ev, s.before, s.after, launches s.out)

end G600

/-! ## The C++ variant (`g600.cpp`): the class `G600Controller` and `main` -/

namespace G600Controller

open G600

/-- The member function `executeCommand(cmd)`. -/
def executeCommand (system : CString → Int) (cmd : Option CString) : List Effect :=
  match cmd with
  | none => []
  | some c =>
    if strlen c > 0 then
      [Effect.printf ("Executing: \"" ++ String.mk c ++ "\"\n"), Effect.system c]
        ++ (if system c = -1 then [Effect.perror "Error executing command\n"] else [])
    else []

/-- The test `if (cmdToRun && strlen(cmdToRun) > 0) executeCommand(cmdToRun)` of both
transitions. -/
def runIfConfigured (system : CString → Int) (cmdToRun : Option CString) : List Effect :=
  match cmdToRun with
  | none => []
  | some c => if strlen c > 0 then executeCommand system (some c) else []

/-- The body of the `for` loop of `processEvents` for the record `ev = events[i]`; the
member tables `downCommands` and `upCommands` have `KEY_STATE_SIZE` slots each. -/
def dispatch (system : CString → Int) (downCommands upCommands : List (Option CString))
    (keyStates : List Int) (ev : input_event) : Option (List Int × List Effect) :=
  if ev.type = EV_KEY then
    let pressed := ev.value
    let scancode := ev.code
    let scan := Effect.printf ("Scan code: " ++ toString scancode ++ "\n")
    match keyStates[scancode]? with
    | none => none
    | some state =>
      if pressed ≠ 0 ∧ state = 0 then
        match downCommands[scancode]? with
        | none => none
        | some cmdToRun =>
          some (keyStates.set scancode 1, scan :: runIfConfigured system cmdToRun)
      else if pressed = 0 ∧ state = 1 then
        match upCommands[scancode]? with
        | none => none
        | some cmdToRun =>
          some (keyStates.set scancode 0, scan :: runIfConfigured system cmdToRun)
      else some (keyStates, [scan])
  else some (keyStates, [])

/-- The `for` loop of `processEvents` over the records it visits, in order. -/
def processBatch (system : CString → Int) (downCommands upCommands : List (Option CString)) :
    List Int → List input_event → Option (List Int × List Step)
  | keyStates, [] => some (keyStates, [])
  | keyStates, ev :: rest =>
    match dispatch system downCommands upCommands keyStates ev with
    | none => none
    | some (keyStates1, out) =>
      match processBatch system downCommands upCommands keyStates1 rest with
      | none => none
      | some (keyStates2, steps) => some (keyStates2, ⟨ev, keyStates, keyStates1, out⟩ :: steps)

/-- The member function `processEvents`: the `while (true)` loop, on the members `fd`,
`keyStates`, `downCommands` and `upCommands`. -/
def processEvents (system : CString → Int) (downCommands upCommands : List (Option CString))
    (fd : Int) : List Int → List ReadResult → Option LoopResult
  | keyStates, [] => some ⟨none, keyStates, [], []⟩
  | keyStates, r :: rest =>
    if r.n ≤ 0 then
      some ⟨some 2, keyStates,
        [Effect.read fd, Effect.perror "Error reading device", Effect.close fd], []⟩
    else if r.n < ((sizeof_input_event * 2 : Nat) : Int) then
      (processEvents system downCommands upCommands fd keyStates rest).map
        (fun l => { l with trace := Effect.read fd :: l.trace })
    else
      match processBatch system downCommands upCommands keyStates
          (r.events.take (r.n.toNat / sizeof_input_event)) with
      | none => none
      | some (keyStates1, steps) =>
        (processEvents system downCommands upCommands fd keyStates1 rest).map
          (fun l => { l with
            trace := Effect.read fd :: (stepsTrace steps ++ l.trace)
            steps := steps ++ l.steps })

/-- The member function `handleError(find_error)`. -/
def handleError (find_error : Int) : List Effect :=
  [Effect.printf "Error: Couldn't find G600 input device.\n"]
    ++ (if find_error = 1 then
        [Effect.printf ("Suggestion: Check whether the directory " ++ String.mk kDir
          ++ " exists and fix it by editing the source code.\n")]
      else if find_error = 2 then
        [Effect.printf ("Suggestion: Check whether a device with the prefix "
          ++ String.mk kPrefix ++ " exists in " ++ String.mk kDir
          ++ " and fix it by editing the source code.\n")]
      else [])
    ++ [sudoHint]

/-- What `initializeDevice(path)` leaves behind: the returned value, the member `fd` and
the effects. -/
structure InitResult where
  ret : Int
  fd : Int
  trace : List Effect
deriving DecidableEq, Repr

/-- The member function `initializeDevice(path)`; the member `fd` keeps the value that
`open` returned on every path. -/
def initializeDevice (env : Env) (path : CString) : InitResult :=
  let fd := env.openResult
  if fd < 0 then
    ⟨1, fd, [Effect.openRdonly path, Effect.perror "Error opening device", sudoHint]⟩
  else if env.grabResult < 0 then
    ⟨1, fd, [Effect.openRdonly path, Effect.ioctlGrab fd,
      Effect.perror "Error grabbing device", Effect.close fd]⟩
  else ⟨0, fd, [Effect.openRdonly path, Effect.ioctlGrab fd]⟩

/-- What a call of `run()` leaves behind: the returned value (`none` while the loop of
`processEvents` is still running), the members `fd` and `keyStates`, the effects and the
executed iterations of the `for` loop. -/
structure RunResult where
  ret : Option Int
  fd : Int
  keyStates : List Int
  trace : List Effect
  steps : List Step
deriving DecidableEq, Repr

/-- The member function `run()` on a freshly constructed controller (`fd` is -1 and
`keyStates` is all zero); `find_g600`, `starts_with` and `ends_with` are the same
functions as in `g600.c`. -/
def run (downCommands upCommands : List (Option CString)) (env : Env) : Option RunResult :=
  match find_g600 env.dir with
  | none => none
  | some found =>
    if found.ret ≠ 0 then
      some ⟨some 1, -1, initialKeyStates, found.trace ++ handleError found.ret, []⟩
    else
      match found.path with
      | none => none
      | some path =>
        let init := initializeDevice env path
        if init.ret ≠ 0 then
          some ⟨some 1, init.fd, initialKeyStates, found.trace ++ init.trace, []⟩
        else
          match processEvents env.system downCommands upCommands init.fd
              initialKeyStates env.reads with
          | none => none
          | some l =>
            some ⟨l.status, init.fd, l.keyStates,
              found.trace ++ init.trace
                ++ [Effect.printf "G600 controller started successfully.\n\n"] ++ l.trace,
              l.steps⟩

/-- The destructor `~G600Controller()` for the value `fd` of the member. -/
def destructor (fd : Int) : List Effect :=
  if fd ≥ 0 then [Effect.close fd] else []

/-- An array `const char *t[KEY_STATE_SIZE] = {NULL}` followed by the assignments
`t[i] = "..."`, in order. -/
def assigned (assignments : List (Nat × String)) : List (Option CString) :=
  assignments.foldl (fun tbl d => tbl.set d.1 (some d.2.toList))
    (List.replicate KEY_STATE_SIZE none)

/-- The local table `downCommands` of `main` in `g600.cpp`. -/
def mainDownCommands : List (Option CString) :=
  assigned [
    (79, "xdotool keydown ctrl"),
    (80, ""),
    (81, "xdotool keydown alt"),
    (75, "xdotool keydown shift"),
    (76, ""), (77, ""), (71, ""), (72, ""), (73, ""), (82, ""), (74, ""), (78, "")]

/-- The local table `upCommands` of `main` in `g600.cpp`. -/
def mainUpCommands : List (Option CString) :=
  assigned [
    (79, "xdotool keyup ctrl"),
    (80, ""),
    (81, "xdotool keyup alt"),
    (75, "xdotool keyup shift"),
    (76, ""), (77, ""), (71, ""), (72, ""), (73, ""), (82, ""), (74, ""), (78, "")]

/-- The function `main` of `g600.cpp` with the two tables as parameters (the program
itself is `main mainDownCommands mainUpCommands`): the constructor copies the
`KEY_STATE_SIZE` slots of each table and prints the introduction, `run()` is called, and
when it returns the destructor runs. -/
def main (downCommands upCommands : List (Option CString)) (env : Env) : Option Run :=
  if KEY_STATE_SIZE ≤ downCommands.length ∧ KEY_STATE_SIZE ≤ upCommands.length then
    match run (downCommands.take KEY_STATE_SIZE) (upCommands.take KEY_STATE_SIZE) env with
    | none => none
    | some r =>
      some ⟨r.ret,
        intro ++ r.trace ++ (match r.ret with
          | some _ => destructor r.fd
          | none => []),
        some r.keyStates, r.steps⟩
  else none

end G600Controller

/-! # Theorems -/

namespace G600

theorem strncmp_eq_zero_iff (n : Nat) :
    ∀ a b : CString, strncmp a b n = 0 ↔ a.take n = b.take n := by
  induction n with
  | zero => intro a b; simp [strncmp]
  | succ k ih =>
    intro a b
    cases a with
    | nil =>
      cases b with
      | nil => simp [strncmp]
      | cons y ys => simp [strncmp]
    | cons x xs =>
      cases b with
      | nil => simp [strncmp]
      | cons y ys =>
        by_cases hxy : x = y
        · simp [strncmp, hxy, ih]
        · by_cases hlt : x.toNat < y.toNat <;> simp [strncmp, hxy, hlt]

theorem starts_with_ne_zero_iff (h p : CString) : starts_with h p ≠ 0 ↔ p <+: h := by
  have key : (strlen h ≥ strlen p ∧ strncmp h p (strlen p) = 0) ↔ p <+: h := by
    rw [strncmp_eq_zero_iff, List.prefix_iff_eq_take]
    simp only [strlen, List.take_length]
    constructor
    · rintro ⟨_, e⟩; exact e.symm
    · intro e
      refine ⟨?_, e.symm⟩
      have := congrArg List.length e
      simp at this
      omega
  unfold starts_with
  simp only [key]
  by_cases hp : p <+: h <;> simp [hp]

theorem ptr_add_sub (h p : CString) (hle : strlen p ≤ strlen h) :
    ptr_add h ((strlen h : Int) - (strlen p : Int)) = some (h.drop (strlen h - strlen p)) := by
  unfold ptr_add
  have h1 : (0 : Int) ≤ (strlen h : Int) - (strlen p : Int) ∧
      (strlen h : Int) - (strlen p : Int) ≤ (strlen h : Int) := by omega
  rw [if_pos h1]
  have h2 : ((strlen h : Int) - (strlen p : Int)).toNat = strlen h - strlen p := by omega
  rw [h2]

theorem ends_with_eq (h p : CString) :
    ends_with h p = some (if p <:+ h then 1 else 0) := by
  unfold ends_with
  by_cases hle : strlen p ≤ strlen h
  · simp only [ge_iff_le, hle, if_true, ptr_add_sub h p hle]
    have key : strncmp (h.drop (strlen h - strlen p)) p (strlen p) = 0 ↔ p <:+ h := by
      rw [strncmp_eq_zero_iff, List.suffix_iff_eq_drop]
      have hl : (h.drop (strlen h - strlen p)).length = strlen p := by
        simp [strlen] at *; omega
      simp only [strlen] at *
      rw [List.take_length]
      have ht : List.take p.length (h.drop (h.length - p.length)) = h.drop (h.length - p.length) := by
        rw [List.take_eq_self_iff]; omega
      rw [ht]
      constructor
      · intro e; exact e.symm
      · intro e; exact e.symm
    simp only [key]
  · have hns : ¬ p <:+ h := fun hs => hle (by simpa [strlen] using hs.length_le)
    simp [hle, hns]

/-- A name matches when it starts with `kPrefix` and ends with `kSuffix`. -/
theorem scan_step (d_name : CString) (rest : List CString) :
    find_g600_scan (d_name :: rest) =
      if kPrefix <+: d_name ∧ kSuffix <:+ d_name then
        some ⟨0, some ((kDir ++ d_name).take (MAX_PATH_LENGTH - 1)),
          [Effect.printf ("Full path is "
            ++ String.mk ((kDir ++ d_name).take (MAX_PATH_LENGTH - 1)) ++ "\n"),
           Effect.closedir]⟩
      else find_g600_scan rest := by
  rw [find_g600_scan]
  by_cases hp : kPrefix <+: d_name
  · rw [if_pos ((starts_with_ne_zero_iff _ _).2 hp), ends_with_eq]
    by_cases hs : kSuffix <:+ d_name <;> simp [hp, hs]
  · rw [if_neg (fun h => hp ((starts_with_ne_zero_iff _ _).1 h))]
    simp [hp]

theorem scan_no_match (names : List CString)
    (hno : ∀ x ∈ names, ¬ (kPrefix <+: x ∧ kSuffix <:+ x)) :
    find_g600_scan names = some ⟨2, none, [Effect.closedir]⟩ := by
  induction names with
  | nil => rfl
  | cons x xs ih =>
    rw [scan_step, if_neg (hno x (List.mem_cons_self _ _))]
    exact ih (fun y hy => hno y (List.mem_cons_of_mem _ hy))

theorem scan_first_match (pre post : List CString) (m : CString)
    (hpre : ∀ x ∈ pre, ¬ (kPrefix <+: x ∧ kSuffix <:+ x))
    (hm : kPrefix <+: m ∧ kSuffix <:+ m) :
    find_g600_scan (pre ++ m :: post) =
      some ⟨0, some ((kDir ++ m).take (MAX_PATH_LENGTH - 1)),
        [Effect.printf ("Full path is "
          ++ String.mk ((kDir ++ m).take (MAX_PATH_LENGTH - 1)) ++ "\n"),
         Effect.closedir]⟩ := by
  induction pre with
  | nil => rw [List.nil_append, scan_step, if_pos hm]
  | cons x xs ih =>
    rw [List.cons_append, scan_step, if_neg (hpre x (List.mem_cons_self _ _))]
    exact ih (fun y hy => hpre y (List.mem_cons_of_mem _ hy))

theorem scan_ret (names : List CString) :
    ∃ r, find_g600_scan names = some r ∧
      (r.ret = 2 ↔ ∀ x ∈ names, ¬ (kPrefix <+: x ∧ kSuffix <:+ x)) ∧
      (r.ret = 0 ↔ ∃ x ∈ names, kPrefix <+: x ∧ kSuffix <:+ x) := by
  induction names with
  | nil => exact ⟨_, rfl, by simp, by simp⟩
  | cons x xs ih =>
    rw [scan_step]
    by_cases hm : kPrefix <+: x ∧ kSuffix <:+ x
    · rw [if_pos hm]
      refine ⟨_, rfl, ?_, ?_⟩
      · simp only [List.mem_cons, forall_eq_or_imp]
        constructor
        · intro h; exact absurd h (by decide)
        · intro h; exact absurd hm h.1
      · simp only [List.mem_cons, true_iff]
        exact ⟨x, Or.inl rfl, hm⟩
    · rw [if_neg hm]
      obtain ⟨r, hr, h2, h0⟩ := ih
      refine ⟨r, hr, ?_, ?_⟩
      · rw [h2]; simp only [List.mem_cons, forall_eq_or_imp]
        constructor
        · intro h; exact ⟨hm, h⟩
        · intro h; exact h.2
      · rw [h0]; simp only [List.mem_cons, exists_eq_or_imp]
        constructor
        · intro h; exact Or.inr h
        · intro h; rcases h with h | h
          · exact absurd h hm
          · exact h

/-- C9. Name matching is exact and case-sensitive: `starts_with h p` is non-zero exactly
when `p` is a prefix of `h`, `ends_with h p` is non-zero exactly when `p` is a suffix of
`h`; both are 0 when `h` is shorter than `p`; and `ends_with` always has a result, that
is, the pointer it compares from is never outside `h` (in particular never before its
start). -/
theorem name_matching_exact (h p : CString) :
    (starts_with h p ≠ 0 ↔ p <+: h) ∧
    (∃ r, ends_with h p = some r ∧ (r ≠ 0 ↔ p <:+ h)) ∧
    (strlen h < strlen p → starts_with h p = 0 ∧ ends_with h p = some 0) ∧
    (strlen p ≤ strlen h →
      ptr_add h ((strlen h : Int) - (strlen p : Int)) = some (h.drop (strlen h - strlen p))) := by
  refine ⟨starts_with_ne_zero_iff h p, ?_, ?_, ptr_add_sub h p⟩
  · refine ⟨_, ends_with_eq h p, ?_⟩
    by_cases hs : p <:+ h <;> simp [hs]
  · intro hlt
    have hnp : ¬ p <+: h := fun hp => by
      have := hp.length_le; simp only [strlen] at hlt; omega
    have hns : ¬ p <:+ h := fun hs => by
      have := hs.length_le; simp only [strlen] at hlt; omega
    refine ⟨?_, ?_⟩
    · by_contra hne; exact hnp ((starts_with_ne_zero_iff h p).1 hne)
    · rw [ends_with_eq, if_neg hns]

/-- Witness of C9: a name shorter than the pattern matches neither way. -/
theorem name_matching_exact_witness :
    starts_with "kbd".toList kSuffix = 0 ∧ ends_with "kbd".toList kSuffix = some 0 :=
  (name_matching_exact "kbd".toList kSuffix).2.2.1 (by decide)

/-- C8. First match wins: when the listing is `pre ++ m :: post`, no name of `pre` both
starts with `kPrefix` and ends with `kSuffix`, and `m` does (a `dirent` name, at most
`NAME_MAX` characters), then `find_g600` returns 0 and the path is `kDir` followed by
the whole of `m`, whatever `pre` and `post` contain. -/
theorem first_match_wins (pre post : List CString) (m : CString)
    (hpre : ∀ x ∈ pre, ¬ (kPrefix <+: x ∧ kSuffix <:+ x))
    (hm : kPrefix <+: m ∧ kSuffix <:+ m) (hlen : strlen m ≤ NAME_MAX) :
    ∃ r, find_g600 (some (pre ++ m :: post)) = some r ∧ r.ret = 0 ∧
      r.path = some (kDir ++ m) := by
  have htake : (kDir ++ m).take (MAX_PATH_LENGTH - 1) = kDir ++ m := by
    rw [List.take_eq_self_iff]
    have : kDir.length = 17 := by decide
    simp only [strlen, NAME_MAX] at hlen
    simp only [List.length_append, MAX_PATH_LENGTH]
    omega
  simp only [find_g600, scan_first_match pre post m hpre hm, htake, Option.map_some']
  exact ⟨_, rfl, rfl, rfl⟩

/-- Witness of C8: a prefix-only and a suffix-only name before the first full match. -/
theorem first_match_wins_witness :
    ∃ r, find_g600 (some (["usb-Logitech_Gaming_Mouse_G600_x".toList, "y-if01-event-kbd".toList]
        ++ "usb-Logitech_Gaming_Mouse_G600_A-if01-event-kbd".toList
          :: ["usb-Logitech_Gaming_Mouse_G600_B-if01-event-kbd".toList])) = some r ∧
      r.ret = 0 ∧
      r.path = some (kDir ++ "usb-Logitech_Gaming_Mouse_G600_A-if01-event-kbd".toList) :=
  first_match_wins _ _ _ (by decide) (by decide) (by decide)

/-- C10. Locator failure codes: `find_g600` always returns; its code is 1 exactly when
the directory cannot be opened, 2 exactly when it opens and no entry both starts with
`kPrefix` and ends with `kSuffix`, and 0 in every other case, that is, exactly when it
opens and some entry matches. -/
theorem locator_failure_codes (dir : Option (List CString)) :
    ∃ r, find_g600 dir = some r ∧
      (r.ret = 1 ↔ dir = none) ∧
      (r.ret = 2 ↔ ∃ names, dir = some names ∧
        ∀ x ∈ names, ¬ (kPrefix <+: x ∧ kSuffix <:+ x)) ∧
      (r.ret = 0 ↔ ∃ names, dir = some names ∧
        ∃ x ∈ names, kPrefix <+: x ∧ kSuffix <:+ x) := by
  cases dir with
  | none => exact ⟨_, rfl, by simp, by simp, by simp⟩
  | some names =>
    obtain ⟨r, hr, h2, h0⟩ := scan_ret names
    refine ⟨{ r with trace := Effect.opendir kDir :: r.trace }, ?_, ?_, ?_, ?_⟩
    · simp only [find_g600, hr, Option.map_some']
    · simp only [reduceCtorEq, iff_false]
      intro h1
      by_cases hno : ∀ x ∈ names, ¬ (kPrefix <+: x ∧ kSuffix <:+ x)
      · have := h2.2 hno; omega
      · push_neg at hno
        have := h0.2 (by obtain ⟨x, hx, hh⟩ := hno; exact ⟨x, hx, hh⟩); omega
    · simp only [Option.some.injEq, exists_eq_left']
      exact h2
    · simp only [Option.some.injEq, exists_eq_left']
      exact h0

/-! ## Dispatcher -/

theorem launches_append (xs ys : List Effect) :
    launches (xs ++ ys) = launches xs ++ launches ys := by
  induction xs with
  | nil => rfl
  | cons x xs ih => cases x <;> simp [launches, ih]

theorem launches_runCommand (system : CString → Int) (table : List (Option CString))
    (c : Nat) (cmdToRun : Option CString) (h : table[c]? = some cmdToRun) :
    launches (runCommand system cmdToRun) = (configured table c).toList := by
  unfold configured
  rw [h]
  cases cmdToRun with
  | none => rfl
  | some cmd =>
    cases cmd with
    | nil => simp [runCommand, strlen, launches]
    | cons a as =>
      by_cases hs : system (a :: as) = -1 <;>
        simp [runCommand, strlen, launches, hs]

theorem dispatch_key (system : CString → Int) (down up : List (Option CString))
    (keyStates : List Int) (c : Nat) (v : Int) (state : Int)
    (hst : keyStates[c]? = some state) :
    dispatch system down up keyStates ⟨EV_KEY, c, v⟩ =
      if v ≠ 0 ∧ state = 0 then
        (down[c]?).map (fun cmdToRun => (keyStates.set c 1, runCommand system cmdToRun))
      else if v = 0 ∧ state = 1 then
        (up[c]?).map (fun cmdToRun => (keyStates.set c 0, runCommand system cmdToRun))
      else some (keyStates, []) := by
  simp only [dispatch, if_true, hst]
  split_ifs <;> first | rfl | (cases down[c]? <;> rfl) | (cases up[c]? <;> rfl)

theorem dispatch_key_out_of_range (system : CString → Int) (down up : List (Option CString))
    (keyStates : List Int) (c : Nat) (v : Int) (hc : keyStates.length ≤ c) :
    dispatch system down up keyStates ⟨EV_KEY, c, v⟩ = none := by
  have h : keyStates[c]? = none := List.getElem?_eq_none hc
  simp [dispatch, h]

theorem dispatch_not_key (system : CString → Int) (down up : List (Option CString))
    (keyStates : List Int) (ev : input_event) (h : ev.type ≠ EV_KEY) :
    dispatch system down up keyStates ev = some (keyStates, []) := by
  simp [dispatch, h]

theorem initialKeyStates_get (c : Nat) (hc : c < KEY_STATE_SIZE) :
    initialKeyStates[c]? = some 0 := by
  simp [initialKeyStates, List.getElem?_replicate, hc]

/-- C1. Firing transitions: for a key record with scancode `c` inside the key-state
array and value `v`, if `v != 0` and `state[c]` is Up (0) and the press table has a slot
for `c`, the step sets `c` to Down (1) and launches exactly the configured press command
of `c` (nothing when the entry is null or empty); if `v == 0` and `state[c]` is Down and
the release table has a slot for `c`, it sets `c` to Up and launches exactly the
configured release command of `c`.  At most one command is launched. -/
theorem firing_transitions (system : CString → Int) (down up : List (Option CString))
    (keyStates : List Int) (c : Nat) (v : Int) (hc : c < keyStates.length) :
    (v ≠ 0 → keyStates[c]? = some 0 → c < down.length →
      ∃ ks out, dispatch system down up keyStates ⟨EV_KEY, c, v⟩ = some (ks, out) ∧
        ks = keyStates.set c 1 ∧ ks[c]? = some 1 ∧
        launches out = (configured down c).toList ∧ (launches out).length ≤ 1) ∧
    (v = 0 → keyStates[c]? = some 1 → c < up.length →
      ∃ ks out, dispatch system down up keyStates ⟨EV_KEY, c, v⟩ = some (ks, out) ∧
        ks = keyStates.set c 0 ∧ ks[c]? = some 0 ∧
        launches out = (configured up c).toList ∧ (launches out).length ≤ 1) := by
  constructor
  · intro hv hst hd
    have hget : down[c]? = some down[c] := List.getElem?_eq_getElem hd
    refine ⟨keyStates.set c 1, runCommand system down[c], ?_, rfl, ?_, ?_, ?_⟩
    · rw [dispatch_key system down up keyStates c v 0 hst, if_pos ⟨hv, rfl⟩, hget]; rfl
    · simp [hc]
    · exact launches_runCommand system down c _ hget
    · rw [launches_runCommand system down c _ hget]
      cases configured down c <;> simp
  · intro hv hst hu
    have hget : up[c]? = some up[c] := List.getElem?_eq_getElem hu
    refine ⟨keyStates.set c 0, runCommand system up[c], ?_, rfl, ?_, ?_, ?_⟩
    · rw [dispatch_key system down up keyStates c v 1 hst, if_neg (by simp [hv]),
        if_pos ⟨hv, rfl⟩, hget]; rfl
    · simp [hc]
    · exact launches_runCommand system up c _ hget
    · rw [launches_runCommand system up c _ hget]
      cases configured up c <;> simp

set_option maxRecDepth 100000 in
/-- Witness of C1: scancode 79 (G9) with the tables of `g600.c`, pressed from the initial
state. -/
theorem firing_transitions_witness :
    ∃ ks out, dispatch (fun _ => 0) downCommands upCommands initialKeyStates ⟨EV_KEY, 79, 1⟩
        = some (ks, out) ∧
      ks = initialKeyStates.set 79 1 ∧ ks[79]? = some 1 ∧
      launches out = (configured downCommands 79).toList ∧ (launches out).length ≤ 1 :=
  (firing_transitions (fun _ => 0) downCommands upCommands initialKeyStates 79 1
    (by decide)).1 (by decide) (by decide) (by decide)

/-- C2. Duplicate suppression: a key record with `v != 0` while `state[c]` is already
Down (1), autorepeat `v == 2` included, or with `v == 0` while `state[c]` is already Up
(0), leaves the whole key-state array unchanged and has no effect at all; in particular
a release of any scancode in the initial all-Up state launches nothing. -/
theorem duplicate_suppression (system : CString → Int) (down up : List (Option CString))
    (keyStates : List Int) (c : Nat) (v : Int) :
    ((v ≠ 0 ∧ keyStates[c]? = some 1) ∨ (v = 0 ∧ keyStates[c]? = some 0) →
      dispatch system down up keyStates ⟨EV_KEY, c, v⟩ = some (keyStates, [])) ∧
    (c < KEY_STATE_SIZE →
      dispatch system down up initialKeyStates ⟨EV_KEY, c, 0⟩ = some (initialKeyStates, [])) := by
  have main : (v ≠ 0 ∧ keyStates[c]? = some 1) ∨ (v = 0 ∧ keyStates[c]? = some 0) →
      dispatch system down up keyStates ⟨EV_KEY, c, v⟩ = some (keyStates, []) := by
    rintro (⟨hv, hst⟩ | ⟨hv, hst⟩)
    · rw [dispatch_key system down up keyStates c v 1 hst]; simp [hv]
    · rw [dispatch_key system down up keyStates c v 0 hst]; simp [hv]
  refine ⟨main, fun hc => ?_⟩
  rw [dispatch_key system down up initialKeyStates c 0 0 (initialKeyStates_get c hc)]
  simp

set_option maxRecDepth 100000 in
/-- Witness of C2: the autorepeat (`value == 2`) of scancode 79 while it is Down. -/
theorem duplicate_suppression_witness :
    dispatch (fun _ => 0) downCommands upCommands (initialKeyStates.set 79 1) ⟨EV_KEY, 79, 2⟩
      = some (initialKeyStates.set 79 1, []) :=
  (duplicate_suppression (fun _ => 0) downCommands upCommands (initialKeyStates.set 79 1)
    79 2).1 (Or.inl ⟨by decide, by decide⟩)

theorem initialKeyStates_length : initialKeyStates.length = KEY_STATE_SIZE := by
  unfold initialKeyStates
  exact List.length_replicate _ _

/-- C5 (the code at the failing input). A key record with code 300 is not dropped: the
step does no bounds check, it indexes `keyStates[300]` outside the 256-entry array and
has no defined result. -/
theorem out_of_range_not_dropped :
    dispatch (fun _ => 0) downCommands upCommands initialKeyStates ⟨EV_KEY, 300, 1⟩ = none ∧
    dispatch (fun _ => 0) downCommands upCommands initialKeyStates ⟨EV_KEY, 300, 1⟩
      ≠ some (initialKeyStates, []) := by
  have h : dispatch (fun _ => 0) downCommands upCommands initialKeyStates ⟨EV_KEY, 300, 1⟩
      = none :=
    dispatch_key_out_of_range _ _ _ _ 300 1 (by rw [initialKeyStates_length]; decide)
  exact ⟨h, by rw [h]; simp⟩

set_option maxRecDepth 100000 in
/-- C6 (the code at the failing input). The tables of `g600.c` have 82 slots each, so
for scancode 82 the lookups `downCommands[82]` (on a press from Up) and `upCommands[82]`
(on a release from Down) are outside the tables and the step has no defined result. -/
theorem tables_shorter_than_key_states :
    downCommands.length = 82 ∧ upCommands.length = 82 ∧
    downCommands[82]? = none ∧ upCommands[82]? = none ∧
    initialKeyStates[82]? = some 0 ∧
    dispatch (fun _ => 0) downCommands upCommands initialKeyStates ⟨EV_KEY, 82, 1⟩ = none ∧
    dispatch (fun _ => 0) downCommands upCommands (initialKeyStates.set 82 1) ⟨EV_KEY, 82, 0⟩
      = none := by
  decide

/-! ## Sequences of records -/

theorem dispatch_cases (system : CString → Int) (down up : List (Option CString))
    (ks : List Int) (e : input_event) (hlen : ks.length = KEY_STATE_SIZE)
    (hin : e.type = EV_KEY →
      e.code < KEY_STATE_SIZE ∧ e.code < down.length ∧ e.code < up.length) :
    ∃ ks1 out, dispatch system down up ks e = some (ks1, out) ∧
      ks1.length = KEY_STATE_SIZE ∧
      ((ks1 = ks ∧ out = []) ∨
       (e.value ≠ 0 ∧ ks[e.code]? = some 0 ∧ ks1 = ks.set e.code 1 ∧
          launches out = (configured down e.code).toList) ∨
       (e.value = 0 ∧ ks[e.code]? = some 1 ∧ ks1 = ks.set e.code 0 ∧
          launches out = (configured up e.code).toList)) := by
  by_cases hk : e.type = EV_KEY
  · obtain ⟨hc, hd, hu⟩ := hin hk
    obtain ⟨t, c, v⟩ := e
    simp only at hk hc hd hu ⊢
    subst hk
    have hc2 : c < ks.length := by omega
    have hst : ks[c]? = some ks[c] := List.getElem?_eq_getElem hc2
    have hgd : down[c]? = some down[c] := List.getElem?_eq_getElem hd
    have hgu : up[c]? = some up[c] := List.getElem?_eq_getElem hu
    rw [dispatch_key system down up ks c v ks[c] hst]
    by_cases h1 : v ≠ 0 ∧ ks[c] = 0
    · rw [if_pos h1, hgd]
      refine ⟨_, _, rfl, by simpa using hlen, Or.inr (Or.inl ⟨h1.1, ?_, rfl, ?_⟩)⟩
      · rw [hst, h1.2]
      · exact launches_runCommand system down c _ hgd
    · rw [if_neg h1]
      by_cases h2 : v = 0 ∧ ks[c] = 1
      · rw [if_pos h2, hgu]
        refine ⟨_, _, rfl, by simpa using hlen, Or.inr (Or.inr ⟨h2.1, ?_, rfl, ?_⟩)⟩
        · rw [hst, h2.2]
        · exact launches_runCommand system up c _ hgu
      · rw [if_neg h2]
        exact ⟨_, _, rfl, hlen, Or.inl ⟨rfl, rfl⟩⟩
  · exact ⟨_, _, dispatch_not_key system down up ks e hk, hlen, Or.inl ⟨rfl, rfl⟩⟩

theorem processBatch_cons (system : CString → Int) (down up : List (Option CString))
    (ks ks1 ks2 : List Int) (e : input_event) (rest : List input_event)
    (out : List Effect) (steps : List Step)
    (h1 : dispatch system down up ks e = some (ks1, out))
    (h2 : processBatch system down up ks1 rest = some (ks2, steps)) :
    processBatch system down up ks (e :: rest) = some (ks2, ⟨e, ks, ks1, out⟩ :: steps) := by
  rw [processBatch, h1]
  simp only [h2]

theorem launchesBy_append (c : Nat) (s1 s2 : List Step) :
    launchesBy c (s1 ++ s2) = launchesBy c s1 ++ launchesBy c s2 := by
  induction s1 with
  | nil => rfl
  | cons s rest ih =>
    by_cases h : s.ev.code = c <;> simp [launchesBy, h, ih]

theorem processBatch_unconfigured (system : CString → Int) (down up : List (Option CString))
    (c : Nat) (hcd : configured down c = none) (hcu : configured up c = none)
    (events : List input_event) :
    ∀ ks : List Int, ks.length = KEY_STATE_SIZE →
      (∀ e ∈ events, e.type = EV_KEY →
        e.code < KEY_STATE_SIZE ∧ e.code < down.length ∧ e.code < up.length) →
      ∃ ks2 steps, processBatch system down up ks events = some (ks2, steps) ∧
        ks2.length = KEY_STATE_SIZE ∧ launchesBy c steps = [] := by
  induction events with
  | nil => intro ks hlen _; exact ⟨ks, [], rfl, hlen, rfl⟩
  | cons e rest ih =>
    intro ks hlen hin
    obtain ⟨ks1, out, hd, hlen1, hcase⟩ :=
      dispatch_cases system down up ks e hlen (hin e (List.mem_cons_self _ _))
    obtain ⟨ks2, steps, hp, hlen2, hl⟩ :=
      ih ks1 hlen1 (fun x hx => hin x (List.mem_cons_of_mem _ hx))
    refine ⟨ks2, _, processBatch_cons system down up ks ks1 ks2 e rest out steps hd hp,
      hlen2, ?_⟩
    by_cases hc : e.code = c
    · have hout : launches out = [] := by
        rcases hcase with ⟨_, ho⟩ | ⟨_, _, _, ho⟩ | ⟨_, _, _, ho⟩
        · rw [ho]; rfl
        · rw [ho, hc, hcd]; rfl
        · rw [ho, hc, hcu]; rfl
      simp [launchesBy, hc, hout, hl]
    · simp [launchesBy, hc, hl]

theorem event_loop_unconfigured (system : CString → Int) (down up : List (Option CString))
    (fd : Int) (c : Nat) (hcd : configured down c = none) (hcu : configured up c = none)
    (reads : List ReadResult) :
    ∀ ks : List Int, ks.length = KEY_STATE_SIZE →
      (∀ r ∈ reads, ∀ e ∈ r.events, e.type = EV_KEY →
        e.code < KEY_STATE_SIZE ∧ e.code < down.length ∧ e.code < up.length) →
      ∃ l, event_loop system down up fd ks reads = some l ∧ launchesBy c l.steps = [] := by
  induction reads with
  | nil => intro ks _ _; exact ⟨_, rfl, rfl⟩
  | cons r rest ih =>
    intro ks hlen hin
    rw [event_loop]
    by_cases h0 : r.n ≤ 0
    · rw [if_pos h0]; exact ⟨_, rfl, rfl⟩
    · rw [if_neg h0]
      have hrest := fun x hx => hin x (List.mem_cons_of_mem _ hx)
      by_cases h1 : r.n < ((sizeof_input_event * 2 : Nat) : Int)
      · rw [if_pos h1]
        obtain ⟨l, hl, hb⟩ := ih ks hlen hrest
        rw [hl]
        exact ⟨_, rfl, hb⟩
      · rw [if_neg h1]
        obtain ⟨ks1, steps, hp, hlen1, hs⟩ :=
          processBatch_unconfigured system down up c hcd hcu
            (r.events.take (r.n.toNat / sizeof_input_event)) ks hlen
            (fun e he => hin r (List.mem_cons_self _ _) e (List.mem_of_mem_take he))
        obtain ⟨l, hl, hb⟩ := ih ks1 hlen1 hrest
        simp only [hp, hl, Option.map_some']
        exact ⟨_, rfl, by simp [launchesBy_append, hs, hb]⟩

theorem alternating_from (system : CString → Int) (down up : List (Option CString))
    (c : Nat) (A B : CString) (hc : c < KEY_STATE_SIZE)
    (hA : configured down c = some A) (hB : configured up c = some B)
    (events : List input_event) :
    ∀ ks : List Int, ks.length = KEY_STATE_SIZE →
      (∀ e ∈ events, e.type = EV_KEY →
        e.code < KEY_STATE_SIZE ∧ e.code < down.length ∧ e.code < up.length) →
      ∃ ks2 steps, processBatch system down up ks events = some (ks2, steps) ∧
        (ks[c]? = some 0 →
          launchesBy c steps = alternating A B (launchesBy c steps).length ∧
          ((launchesBy c steps).length + 1) / 2 = upDownTransitions c steps) ∧
        (ks[c]? = some 1 →
          launchesBy c steps = alternating B A (launchesBy c steps).length ∧
          (launchesBy c steps).length / 2 = upDownTransitions c steps) := by
  induction events with
  | nil =>
    intro ks _ _
    exact ⟨ks, [], rfl, fun _ => ⟨rfl, by simp [launchesBy, upDownTransitions]⟩,
      fun _ => ⟨rfl, by simp [launchesBy, upDownTransitions]⟩⟩
  | cons e rest ih =>
    intro ks hlen hin
    obtain ⟨ks1, out, hd, hlen1, hcase⟩ :=
      dispatch_cases system down up ks e hlen (hin e (List.mem_cons_self _ _))
    obtain ⟨ks2, steps, hp, ih0, ih1⟩ :=
      ih ks1 hlen1 (fun x hx => hin x (List.mem_cons_of_mem _ hx))
    refine ⟨ks2, _, processBatch_cons system down up ks ks1 ks2 e rest out steps hd hp, ?_⟩
    have hck : c < ks.length := by omega
    rcases hcase with ⟨hks, ho⟩ | ⟨_, hst, hks, ho⟩ | ⟨_, hst, hks, ho⟩
    · -- no transition
      subst hks; subst ho
      have hno : ¬ (ks1[c]? = some 0 ∧ ks1[c]? = some 1) := by
        rintro ⟨a, b⟩; rw [a] at b; simp at b
      have hL : launchesBy c (⟨e, ks1, ks1, []⟩ :: steps) = launchesBy c steps := by
        by_cases h : e.code = c <;> simp [launchesBy, launches, h]
      have hU : upDownTransitions c (⟨e, ks1, ks1, []⟩ :: steps)
          = upDownTransitions c steps := by
        simp [upDownTransitions, hno]
      rw [hL, hU]
      exact ⟨ih0, ih1⟩
    · -- Up to Down
      by_cases h : e.code = c
      · rw [h] at hst ho hks
        have h1 : ks1[c]? = some 1 := by rw [hks]; simp [hck]
        have hL : launchesBy c (⟨e, ks, ks1, out⟩ :: steps) = A :: launchesBy c steps := by
          simp [launchesBy, h, ho, hA]
        have hU : upDownTransitions c (⟨e, ks, ks1, out⟩ :: steps)
            = 1 + upDownTransitions c steps := by
          simp [upDownTransitions, hst, h1]
        obtain ⟨e1, e2⟩ := ih1 h1
        rw [hL, hU]
        refine ⟨fun _ => ⟨?_, ?_⟩, fun h' => ?_⟩
        · rw [List.length_cons, alternating, ← e1]
        · rw [List.length_cons]; omega
        · rw [hst] at h'; simp at h'
      · have hsame : ks1[c]? = ks[c]? := by rw [hks]; simp [List.getElem?_set, h]
        have hno : ¬ (ks[c]? = some 0 ∧ ks1[c]? = some 1) := by
          rw [hsame]; rintro ⟨a, b⟩; rw [a] at b; simp at b
        have hL : launchesBy c (⟨e, ks, ks1, out⟩ :: steps) = launchesBy c steps := by
          simp [launchesBy, h]
        have hU : upDownTransitions c (⟨e, ks, ks1, out⟩ :: steps)
            = upDownTransitions c steps := by
          simp [upDownTransitions, hno]
        rw [hL, hU, ← hsame]
        exact ⟨ih0, ih1⟩
    · -- Down to Up
      by_cases h : e.code = c
      · rw [h] at hst ho hks
        have h0 : ks1[c]? = some 0 := by rw [hks]; simp [hck]
        have hL : launchesBy c (⟨e, ks, ks1, out⟩ :: steps) = B :: launchesBy c steps := by
          simp [launchesBy, h, ho, hB]
        have hU : upDownTransitions c (⟨e, ks, ks1, out⟩ :: steps)
            = upDownTransitions c steps := by
          simp [upDownTransitions, hst]
        obtain ⟨e1, e2⟩ := ih0 h0
        rw [hL, hU]
        refine ⟨fun h' => ?_, fun _ => ⟨?_, ?_⟩⟩
        · rw [hst] at h'; simp at h'
        · rw [List.length_cons, alternating, ← e1]
        · rw [List.length_cons]; omega
      · have hsame : ks1[c]? = ks[c]? := by rw [hks]; simp [List.getElem?_set, h]
        have hno : ¬ (ks[c]? = some 0 ∧ ks1[c]? = some 1) := by
          rw [hsame]; rintro ⟨a, b⟩; rw [a] at b; simp at b
        have hL : launchesBy c (⟨e, ks, ks1, out⟩ :: steps) = launchesBy c steps := by
          simp [launchesBy, h]
        have hU : upDownTransitions c (⟨e, ks, ks1, out⟩ :: steps)
            = upDownTransitions c steps := by
          simp [upDownTransitions, hno]
        rw [hL, hU, ← hsame]
        exact ⟨ih0, ih1⟩

theorem configured_eq_some (table : List (Option CString)) (c : Nat) (A : CString)
    (h : table[c]? = some (some A)) (hne : A ≠ []) : configured table c = some A := by
  simp [configured, h, hne]

theorem dispatch_press (system : CString → Int) (down up : List (Option CString))
    (ks : List Int) (c : Nat) (v : Int) (cmd : Option CString)
    (hst : ks[c]? = some 0) (hv : v ≠ 0) (hd : down[c]? = some cmd) :
    dispatch system down up ks ⟨EV_KEY, c, v⟩ = some (ks.set c 1, runCommand system cmd) := by
  rw [dispatch_key system down up ks c v 0 hst, if_pos ⟨hv, rfl⟩, hd]; rfl

theorem dispatch_held (system : CString → Int) (down up : List (Option CString))
    (ks : List Int) (c : Nat) (v : Int) (hst : ks[c]? = some 1) (hv : v ≠ 0) :
    dispatch system down up ks ⟨EV_KEY, c, v⟩ = some (ks, []) := by
  rw [dispatch_key system down up ks c v 1 hst]; simp [hv]

theorem dispatch_release (system : CString → Int) (down up : List (Option CString))
    (ks : List Int) (c : Nat) (cmd : Option CString)
    (hst : ks[c]? = some 1) (hu : up[c]? = some cmd) :
    dispatch system down up ks ⟨EV_KEY, c, 0⟩ = some (ks.set c 0, runCommand system cmd) := by
  rw [dispatch_key system down up ks c 0 1 hst, if_neg (by simp), if_pos ⟨rfl, rfl⟩, hu]; rfl

theorem launches_runCommand_some (system : CString → Int) (cmd : CString) (hne : cmd ≠ []) :
    launches (runCommand system (some cmd)) = [cmd] := by
  cases cmd with
  | nil => exact absurd rfl hne
  | cons a as =>
    by_cases hs : system (a :: as) = -1 <;> simp [runCommand, strlen, launches, hs]

/-- A press, any number of further non-zero values while the key is held, and a release:
exactly the press command and then the release command are launched. -/
theorem press_hold_release (system : CString → Int) (down up : List (Option CString))
    (c : Nat) (A B : CString) (hc : c < KEY_STATE_SIZE)
    (hA : down[c]? = some (some A)) (hB : up[c]? = some (some B))
    (hA0 : A ≠ []) (hB0 : B ≠ []) (p : Int) (hp : p ≠ 0) (held : List Int)
    (hheld : ∀ v ∈ held, v ≠ 0) :
    ∃ ks steps,
      processBatch system down up initialKeyStates
        (⟨EV_KEY, c, p⟩ :: (held.map (fun v => ⟨EV_KEY, c, v⟩) ++ [⟨EV_KEY, c, 0⟩]))
        = some (ks, steps) ∧
      launches (stepsTrace steps) = [A, B] := by
  have hlen : c < initialKeyStates.length := by rw [initialKeyStates_length]; exact hc
  have h1 : (initialKeyStates.set c 1)[c]? = some 1 := by simp [hlen]
  have tailOK : ∀ hs : List Int, (∀ v ∈ hs, v ≠ 0) →
      ∃ ks steps,
        processBatch system down up (initialKeyStates.set c 1)
          (hs.map (fun v => ⟨EV_KEY, c, v⟩) ++ [⟨EV_KEY, c, 0⟩]) = some (ks, steps) ∧
        launches (stepsTrace steps) = [B] := by
    intro hs
    induction hs with
    | nil =>
      intro _
      refine ⟨_, _, processBatch_cons system down up _ _ _ _ [] _ []
        (dispatch_release system down up _ c _ h1 hB) rfl, ?_⟩
      simp [stepsTrace, launches_runCommand_some system B hB0]
    | cons v vs ih =>
      intro hv
      obtain ⟨ks, steps, hp2, hl⟩ := ih (fun x hx => hv x (List.mem_cons_of_mem _ hx))
      refine ⟨_, _, processBatch_cons system down up _ _ _ _ _ _ _
        (dispatch_held system down up _ c v h1 (hv v (List.mem_cons_self _ _))) hp2, ?_⟩
      simpa [stepsTrace] using hl
  obtain ⟨ks, steps, hp2, hl⟩ := tailOK held hheld
  refine ⟨_, _, processBatch_cons system down up _ _ _ _ _ _ _
    (dispatch_press system down up _ c p _ (initialKeyStates_get c hc) hp hA) hp2, ?_⟩
  simp [stepsTrace, launches_append, launches_runCommand_some system A hA0, hl]

/-- C4. A scancode `c` with no configured action in either table (each entry null, or
the empty string) never causes a launch: for every sequence of reads processed from the
initial state whose key records index inside the key-state array and the tables, the
event loop has a result and no command is passed to `system` in an iteration whose
record has code `c`. -/
theorem unconfigured_never_launches (system : CString → Int)
    (down up : List (Option CString)) (fd : Int) (c : Nat) (reads : List ReadResult)
    (hcd : configured down c = none) (hcu : configured up c = none)
    (hin : ∀ r ∈ reads, ∀ e ∈ r.events, e.type = EV_KEY →
      e.code < KEY_STATE_SIZE ∧ e.code < down.length ∧ e.code < up.length) :
    ∃ l, event_loop system down up fd initialKeyStates reads = some l ∧
      launchesBy c l.steps = [] :=
  event_loop_unconfigured system down up fd c hcd hcu reads initialKeyStates
    initialKeyStates_length hin

set_option maxRecDepth 100000 in
/-- Witness of C4: scancode 4 of `g600.c` (press entry `""`, release entry null), pressed
and released in one batch and pressed again in the next. -/
theorem unconfigured_never_launches_witness :
    ∃ l, event_loop (fun _ => 0) downCommands upCommands 3 initialKeyStates
        [⟨48, [⟨EV_KEY, 4, 1⟩, ⟨EV_KEY, 4, 0⟩]⟩, ⟨48, [⟨EV_KEY, 4, 1⟩, ⟨0, 0, 0⟩]⟩] = some l ∧
      launchesBy 4 l.steps = [] :=
  unconfigured_never_launches (fun _ => 0) downCommands upCommands 3 4 _
    (by decide) (by decide) (by decide)

/-! ## Exit statuses -/

theorem scan_path (names : List CString) :
    ∀ r, find_g600_scan names = some r → r.ret = 0 → ∃ p, r.path = some p := by
  induction names with
  | nil =>
    intro r hr h0
    simp only [find_g600_scan, Option.some.injEq] at hr
    subst hr
    exact absurd h0 (by decide)
  | cons x xs ih =>
    intro r hr h0
    rw [scan_step] at hr
    by_cases hm : kPrefix <+: x ∧ kSuffix <:+ x
    · rw [if_pos hm, Option.some.injEq] at hr
      subst hr
      exact ⟨_, rfl⟩
    · rw [if_neg hm] at hr
      exact ih r hr h0

theorem find_g600_found (names : List CString)
    (hm : ∃ x ∈ names, kPrefix <+: x ∧ kSuffix <:+ x) :
    ∃ r p, find_g600 (some names) = some r ∧ r.ret = 0 ∧ r.path = some p := by
  obtain ⟨r, hr, _, h0⟩ := scan_ret names
  obtain ⟨p, hp⟩ := scan_path names r hr (h0.2 hm)
  refine ⟨{ r with trace := Effect.opendir kDir :: r.trace }, p, ?_, h0.2 hm, hp⟩
  simp only [find_g600, hr, Option.map_some']

theorem event_loop_status (system : CString → Int) (down up : List (Option CString))
    (fd : Int) (reads : List ReadResult) :
    ∀ (ks : List Int) (l : LoopResult),
      event_loop system down up fd ks reads = some l →
      l.status = none ∨ l.status = some 2 := by
  induction reads with
  | nil =>
    intro ks l h
    simp only [event_loop, Option.some.injEq] at h
    subst h
    exact Or.inl rfl
  | cons r rest ih =>
    intro ks l h
    rw [event_loop] at h
    by_cases h0 : r.n ≤ 0
    · rw [if_pos h0, Option.some.injEq] at h
      subst h
      exact Or.inr rfl
    · rw [if_neg h0] at h
      by_cases h1 : r.n < ((sizeof_input_event * 2 : Nat) : Int)
      · rw [if_pos h1] at h
        cases hl : event_loop system down up fd ks rest with
        | none => rw [hl] at h; simp at h
        | some l1 =>
          rw [hl, Option.map_some', Option.some.injEq] at h
          subst h
          exact ih ks l1 hl
      · rw [if_neg h1] at h
        cases hp : processBatch system down up ks
            (r.events.take (r.n.toNat / sizeof_input_event)) with
        | none => rw [hp] at h; simp at h
        | some res =>
          obtain ⟨ks1, steps⟩ := res
          rw [hp] at h
          simp only at h
          cases hl : event_loop system down up fd ks1 rest with
          | none => rw [hl] at h; simp at h
          | some l1 =>
            rw [hl, Option.map_some', Option.some.injEq] at h
            subst h
            exact ih ks1 l1 hl

theorem processBatch_total (system : CString → Int) (down up : List (Option CString))
    (events : List input_event) :
    ∀ ks : List Int, ks.length = KEY_STATE_SIZE →
      (∀ e ∈ events, e.type = EV_KEY →
        e.code < KEY_STATE_SIZE ∧ e.code < down.length ∧ e.code < up.length) →
      ∃ ks2 steps, processBatch system down up ks events = some (ks2, steps) ∧
        ks2.length = KEY_STATE_SIZE := by
  induction events with
  | nil => intro ks hlen _; exact ⟨ks, [], rfl, hlen⟩
  | cons e rest ih =>
    intro ks hlen hin
    obtain ⟨ks1, out, hd, hlen1, _⟩ :=
      dispatch_cases system down up ks e hlen (hin e (List.mem_cons_self _ _))
    obtain ⟨ks2, steps, hp, hlen2⟩ :=
      ih ks1 hlen1 (fun x hx => hin x (List.mem_cons_of_mem _ hx))
    exact ⟨ks2, _, processBatch_cons system down up ks ks1 ks2 e rest out steps hd hp, hlen2⟩

theorem event_loop_read_failure (system : CString → Int) (down up : List (Option CString))
    (fd : Int) (rd : ReadResult) (rest : List ReadResult) (hrd : rd.n ≤ 0)
    (pre : List ReadResult) :
    ∀ ks : List Int, ks.length = KEY_STATE_SIZE →
      (∀ p ∈ pre, 0 < p.n) →
      (∀ p ∈ pre, ∀ e ∈ p.events, e.type = EV_KEY →
        e.code < KEY_STATE_SIZE ∧ e.code < down.length ∧ e.code < up.length) →
      ∃ l, event_loop system down up fd ks (pre ++ rd :: rest) = some l ∧
        l.status = some 2 := by
  induction pre with
  | nil =>
    intro ks _ _ _
    rw [List.nil_append, event_loop, if_pos hrd]
    exact ⟨_, rfl, rfl⟩
  | cons r more ih =>
    intro ks hlen hpos hin
    have h0 : ¬ r.n ≤ 0 := not_le.2 (hpos r (List.mem_cons_self _ _))
    have hpos2 := fun x hx => hpos x (List.mem_cons_of_mem _ hx)
    have hin2 := fun x hx => hin x (List.mem_cons_of_mem _ hx)
    rw [List.cons_append, event_loop, if_neg h0]
    by_cases h1 : r.n < ((sizeof_input_event * 2 : Nat) : Int)
    · rw [if_pos h1]
      obtain ⟨l, hl, hs⟩ := ih ks hlen hpos2 hin2
      rw [hl]
      exact ⟨_, rfl, hs⟩
    · rw [if_neg h1]
      obtain ⟨ks1, steps, hp, hlen1⟩ :=
        processBatch_total system down up
          (r.events.take (r.n.toNat / sizeof_input_event)) ks hlen
          (fun e he => hin r (List.mem_cons_self _ _) e (List.mem_of_mem_take he))
      obtain ⟨l, hl, hs⟩ := ih ks1 hlen1 hpos2 hin2
      simp only [hp, hl, Option.map_some']
      exact ⟨_, rfl, hs⟩

/-- C7 (counterexample). The statuses of the fatal categories are not pairwise distinct:
a directory that cannot be opened, a directory without a matching device, a failed
`open` and a failed grab all end the program of `g600.c` with status 1. -/
theorem exit_status_shared :
    (main downCommands upCommands ⟨none, 3, 0, [], fun _ => 0⟩).map (fun r => r.status)
      = some (some 1) ∧
    (main downCommands upCommands ⟨some [], 3, 0, [], fun _ => 0⟩).map (fun r => r.status)
      = some (some 1) ∧
    (main downCommands upCommands
      ⟨some ["usb-Logitech_Gaming_Mouse_G600_A-if01-event-kbd".toList], -1, 0, [],
        fun _ => 0⟩).map (fun r => r.status) = some (some 1) ∧
    (main downCommands upCommands
      ⟨some ["usb-Logitech_Gaming_Mouse_G600_A-if01-event-kbd".toList], 3, -1, [],
        fun _ => 0⟩).map (fun r => r.status) = some (some 1) := by
  decide

/-- C7 (amended). Every fatal category ends `main` with a non-zero status, and there are
two of them: 1 when the directory cannot be opened, when no entry matches, and when
`open` or the grab fails; 2 when a read fails (which is the only status the event loop
returns).  So the read failure is told apart from the three set-up failures, which share
status 1. -/
theorem exit_statuses (down up : List (Option CString)) (env : Env) :
    (env.dir = none → ∃ r, main down up env = some r ∧ r.status = some 1) ∧
    (∀ names, env.dir = some names →
      (∀ x ∈ names, ¬ (kPrefix <+: x ∧ kSuffix <:+ x)) →
      ∃ r, main down up env = some r ∧ r.status = some 1) ∧
    (∀ names, env.dir = some names → (∃ x ∈ names, kPrefix <+: x ∧ kSuffix <:+ x) →
      env.openResult < 0 ∨ env.grabResult < 0 →
      ∃ r, main down up env = some r ∧ r.status = some 1) ∧
    (∀ names, env.dir = some names → (∃ x ∈ names, kPrefix <+: x ∧ kSuffix <:+ x) →
      0 ≤ env.openResult → 0 ≤ env.grabResult →
      (∀ r s, main down up env = some r → r.status = some s → s = 2) ∧
      (∀ pre rd rest, env.reads = pre ++ rd :: rest → rd.n ≤ 0 →
        (∀ p ∈ pre, 0 < p.n) →
        (∀ p ∈ pre, ∀ e ∈ p.events, e.type = EV_KEY →
          e.code < KEY_STATE_SIZE ∧ e.code < down.length ∧ e.code < up.length) →
        ∃ r, main down up env = some r ∧ r.status = some 2)) := by
  refine ⟨?_, ?_, ?_, ?_⟩
  · intro hdir
    simp only [main, hdir, find_g600]
    exact ⟨_, rfl, rfl⟩
  · intro names hdir hno
    simp only [main, hdir, find_g600, scan_no_match names hno, Option.map_some']
    exact ⟨_, rfl, rfl⟩
  · intro names hdir hm hfail
    obtain ⟨found, p, hf, h0, hp⟩ := find_g600_found names hm
    simp only [main, hdir, hf, h0, hp]
    by_cases ho : env.openResult < 0
    · simp only [ho]; exact ⟨_, rfl, rfl⟩
    · have hg : env.grabResult < 0 := hfail.resolve_left ho
      simp only [ho, hg]; exact ⟨_, rfl, rfl⟩
  · intro names hdir hm ho hg
    obtain ⟨found, p, hf, h0, hp⟩ := find_g600_found names hm
    have ho2 : ¬ env.openResult < 0 := not_lt.2 ho
    have hg2 : ¬ env.grabResult < 0 := not_lt.2 hg
    constructor
    · intro r s hr hs
      simp only [main, hdir, hf, h0, hp, ho2, hg2] at hr
      cases hl : event_loop env.system down up env.openResult initialKeyStates env.reads with
      | none => rw [hl] at hr; simp at hr
      | some l =>
        rw [hl] at hr
        simp only [ne_eq, not_true_eq_false, if_false, Option.some.injEq] at hr
        subst hr
        simp only at hs
        rcases event_loop_status _ _ _ _ _ _ _ hl with h | h
        · rw [h] at hs; simp at hs
        · rw [h] at hs; simp at hs; exact hs.symm
    · intro pre rd rest hreads hrd hpos hin
      obtain ⟨l, hl, hs⟩ := event_loop_read_failure env.system down up env.openResult rd rest
        hrd pre initialKeyStates initialKeyStates_length hpos hin
      simp only [main, hdir, hf, h0, hp, ho2, hg2, hreads, hl]
      exact ⟨_, rfl, hs⟩

/-- Witness of C7 (amended): a read that fails after one processed batch ends the program
of `g600.c` with status 2. -/
theorem exit_statuses_witness :
    ∃ r, main downCommands upCommands
        ⟨some ["usb-Logitech_Gaming_Mouse_G600_A-if01-event-kbd".toList], 3, 0,
          [⟨48, [⟨EV_KEY, 79, 1⟩, ⟨0, 0, 0⟩]⟩, ⟨0, []⟩], fun _ => 0⟩ = some r ∧
      r.status = some 2 :=
  (exit_statuses downCommands upCommands
    ⟨some ["usb-Logitech_Gaming_Mouse_G600_A-if01-event-kbd".toList], 3, 0,
      [⟨48, [⟨EV_KEY, 79, 1⟩, ⟨0, 0, 0⟩]⟩, ⟨0, []⟩], fun _ => 0⟩).2.2.2 _ rfl
    ⟨_, List.mem_cons_self _ _, by decide⟩ (by decide) (by decide)
    |>.2 [⟨48, [⟨EV_KEY, 79, 1⟩, ⟨0, 0, 0⟩]⟩] ⟨0, []⟩ [] rfl (by decide) (by decide) (by decide)

end G600

/-! ## The C++ variant -/

namespace G600Controller

open G600

theorem launches_runIfConfigured (system : CString → Int) (cmdToRun : Option CString) :
    launches (runIfConfigured system cmdToRun) = launches (runCommand system cmdToRun) := by
  cases cmdToRun with
  | none => rfl
  | some c =>
    cases c with
    | nil => simp [runIfConfigured, runCommand, strlen]
    | cons a as =>
      by_cases hs : system (a :: as) = -1 <;>
        simp [runIfConfigured, executeCommand, runCommand, strlen, launches, hs]

/-- The dispatch step of `g600.cpp` and the one of `g600.c` agree on every record: both
are undefined or both are defined, with the same key states and the same launches (they
differ in what they print only). -/
theorem dispatch_agrees (system : CString → Int) (down up : List (Option CString))
    (keyStates : List Int) (ev : input_event) :
    (dispatch system down up keyStates ev).map (fun r => (r.1, launches r.2)) =
      (G600.dispatch system down up keyStates ev).map (fun r => (r.1, launches r.2)) := by
  unfold dispatch G600.dispatch
  by_cases hk : ev.type = EV_KEY
  · simp only [hk, if_true]
    cases keyStates[ev.code]? with
    | none => rfl
    | some state =>
      simp only
      by_cases h1 : ev.value ≠ 0 ∧ state = 0
      · simp only [if_pos h1]
        cases down[ev.code]? with
        | none => rfl
        | some cmd => simp [launches, launches_runIfConfigured]
      · simp only [if_neg h1]
        by_cases h2 : ev.value = 0 ∧ state = 1
        · simp only [if_pos h2]
          cases up[ev.code]? with
          | none => rfl
          | some cmd => simp [launches, launches_runIfConfigured]
        · simp only [if_neg h2]
          simp [launches]
  · simp [hk]

end G600Controller

/-! ## The event loop -/

namespace G600

theorem event_loop_total (system : CString → Int) (down up : List (Option CString))
    (fd : Int) (reads : List ReadResult) :
    ∀ ks : List Int, ks.length = KEY_STATE_SIZE →
      (∀ r ∈ reads, ∀ e ∈ r.events, e.type = EV_KEY →
        e.code < KEY_STATE_SIZE ∧ e.code < down.length ∧ e.code < up.length) →
      ∃ l, event_loop system down up fd ks reads = some l ∧
        l.keyStates.length = KEY_STATE_SIZE := by
  induction reads with
  | nil => intro ks hlen _; exact ⟨_, rfl, hlen⟩
  | cons r rest ih =>
    intro ks hlen hin
    rw [event_loop]
    have hrest := fun x hx => hin x (List.mem_cons_of_mem _ hx)
    by_cases h0 : r.n ≤ 0
    · rw [if_pos h0]; exact ⟨_, rfl, hlen⟩
    · rw [if_neg h0]
      by_cases h1 : r.n < ((sizeof_input_event * 2 : Nat) : Int)
      · rw [if_pos h1]
        obtain ⟨l, hl, hk⟩ := ih ks hlen hrest
        rw [hl]
        exact ⟨_, rfl, hk⟩
      · rw [if_neg h1]
        obtain ⟨ks1, steps, hp, hlen1⟩ :=
          processBatch_total system down up
            (r.events.take (r.n.toNat / sizeof_input_event)) ks hlen
            (fun e he => hin r (List.mem_cons_self _ _) e (List.mem_of_mem_take he))
        obtain ⟨l, hl, hk⟩ := ih ks1 hlen1 hrest
        simp only [hp, hl, Option.map_some']
        exact ⟨_, rfl, hk⟩

theorem event_loop_status_iff (system : CString → Int) (down up : List (Option CString))
    (fd : Int) (reads : List ReadResult) :
    ∀ (ks : List Int) (l : LoopResult),
      event_loop system down up fd ks reads = some l →
      (l.status = some 2 ↔ ∃ r ∈ reads, r.n ≤ 0) := by
  induction reads with
  | nil =>
    intro ks l h
    simp only [event_loop, Option.some.injEq] at h
    subst h
    simp
  | cons r rest ih =>
    intro ks l h
    rw [event_loop] at h
    by_cases h0 : r.n ≤ 0
    · rw [if_pos h0, Option.some.injEq] at h
      subst h
      simp only [true_iff]
      exact ⟨r, List.mem_cons_self _ _, h0⟩
    · rw [if_neg h0] at h
      have hex : (∃ x ∈ r :: rest, x.n ≤ 0) ↔ ∃ x ∈ rest, x.n ≤ 0 := by
        simp only [List.mem_cons, exists_eq_or_imp]
        constructor
        · rintro (hh | hh)
          · exact absurd hh h0
          · exact hh
        · intro hh; exact Or.inr hh
      rw [hex]
      by_cases h1 : r.n < ((sizeof_input_event * 2 : Nat) : Int)
      · rw [if_pos h1] at h
        cases hl : event_loop system down up fd ks rest with
        | none => rw [hl] at h; simp at h
        | some l1 =>
          rw [hl, Option.map_some', Option.some.injEq] at h
          subst h
          exact ih ks l1 hl
      · rw [if_neg h1] at h
        cases hp : processBatch system down up ks
            (r.events.take (r.n.toNat / sizeof_input_event)) with
        | none => rw [hp] at h; simp at h
        | some res =>
          obtain ⟨ks1, steps⟩ := res
          rw [hp] at h
          simp only at h
          cases hl : event_loop system down up fd ks1 rest with
          | none => rw [hl] at h; simp at h
          | some l1 =>
            rw [hl, Option.map_some', Option.some.injEq] at h
            subst h
            exact ih ks1 l1 hl

theorem event_loop_cons (system : CString → Int) (down up : List (Option CString))
    (fd : Int) (ks : List Int) (r : ReadResult) (rest : List ReadResult) :
    event_loop system down up fd ks (r :: rest) =
      if r.n ≤ 0 then
        some ⟨some 2, ks,
          [Effect.read fd, Effect.perror "Error reading device", Effect.close fd], []⟩
      else if r.n < ((sizeof_input_event * 2 : Nat) : Int) then
        (event_loop system down up fd ks rest).map
          (fun l => { l with trace := Effect.read fd :: l.trace })
      else
        match processBatch system down up ks
            (r.events.take (r.n.toNat / sizeof_input_event)) with
        | none => none
        | some (keyStates1, steps) =>
          (event_loop system down up fd keyStates1 rest).map
            (fun l => { l with
              trace := Effect.read fd :: (stepsTrace steps ++ l.trace)
              steps := steps ++ l.steps }) := by
  rw [event_loop]

theorem event_loop_append_failure (system : CString → Int)
    (down up : List (Option CString)) (fd : Int) (rd : ReadResult)
    (rest : List ReadResult) (hrd : rd.n ≤ 0) (pre : List ReadResult) :
    ∀ ks : List Int, (∀ p ∈ pre, 0 < p.n) →
      event_loop system down up fd ks (pre ++ rd :: rest) =
        (event_loop system down up fd ks pre).map (fun l =>
          ⟨some 2, l.keyStates,
            l.trace ++ [Effect.read fd, Effect.perror "Error reading device",
              Effect.close fd],
            l.steps⟩) := by
  induction pre with
  | nil =>
    intro ks _
    rw [List.nil_append, event_loop_cons, if_pos hrd]
    rfl
  | cons r more ih =>
    intro ks hpos
    have h0 : ¬ r.n ≤ 0 := not_le.2 (hpos r (List.mem_cons_self _ _))
    have hpos2 := fun x hx => hpos x (List.mem_cons_of_mem _ hx)
    rw [List.cons_append, event_loop_cons, event_loop_cons system down up fd ks r more,
      if_neg h0, if_neg h0]
    by_cases h1 : r.n < ((sizeof_input_event * 2 : Nat) : Int)
    · rw [if_pos h1, if_pos h1, ih ks hpos2]
      cases event_loop system down up fd ks more with
      | none => rfl
      | some l => rfl
    · rw [if_neg h1, if_neg h1]
      cases processBatch system down up ks
          (r.events.take (r.n.toNat / sizeof_input_event)) with
      | none => rfl
      | some res =>
        obtain ⟨ks1, steps⟩ := res
        simp only
        rw [ih ks1 hpos2]
        cases event_loop system down up fd ks1 more with
        | none => rfl
        | some l => simp

/-- C11. Short reads are discarded: when a read returns `n` with `0 < n` and
`n < 2 * sizeof(struct input_event)`, whatever the buffer holds, the iteration only
counts as a `read`: the loop goes on with the same key states exactly as if that read
had not happened, and if it is the last read so far the state is unchanged, no record
was visited, nothing was launched and the loop has not returned. -/
theorem short_read_discarded (system : CString → Int) (down up : List (Option CString))
    (fd : Int) (keyStates : List Int) (r : ReadResult) (rest : List ReadResult)
    (h0 : 0 < r.n) (h1 : r.n < 2 * (sizeof_input_event : Int)) :
    event_loop system down up fd keyStates (r :: rest) =
      (event_loop system down up fd keyStates rest).map
        (fun l => { l with trace := Effect.read fd :: l.trace }) ∧
    event_loop system down up fd keyStates [r] =
      some ⟨none, keyStates, [Effect.read fd], []⟩ := by
  have hn : ¬ r.n ≤ 0 := not_le.2 h0
  have hs : r.n < ((sizeof_input_event * 2 : Nat) : Int) := by push_cast; omega
  constructor
  · rw [event_loop_cons, if_neg hn, if_pos hs]
  · rw [event_loop_cons, if_neg hn, if_pos hs]; rfl

/-- Witness of C11: a read of 24 bytes, one complete key record (a press of scancode
79), is discarded. -/
theorem short_read_discarded_witness :
    event_loop (fun _ => 0) downCommands upCommands 3 initialKeyStates
        [⟨24, [⟨EV_KEY, 79, 1⟩]⟩] =
      some ⟨none, initialKeyStates, [Effect.read 3], []⟩ :=
  (short_read_discarded (fun _ => 0) downCommands upCommands 3 initialKeyStates
    ⟨24, [⟨EV_KEY, 79, 1⟩]⟩ [] (by decide) (by decide)).2

/-- C12. A failed read is the only way the event loop ends: a result of the loop has
status 2 or none, and status 2 exactly when some read returned `n <= 0`; at the first
such read the loop returns 2 with the key states and the iterations of the reads before
it, adding only the `read`, the `perror` and the `close` to the effects, whatever reads
would follow; and when every read returns `n > 0` (and the key records index inside the
arrays) the loop has a result and has not returned. -/
theorem read_failure_ends_loop (system : CString → Int) (down up : List (Option CString))
    (fd : Int) (keyStates : List Int) (reads : List ReadResult) :
    (∀ l, event_loop system down up fd keyStates reads = some l →
      (l.status = none ∨ l.status = some 2) ∧
      (l.status = some 2 ↔ ∃ r ∈ reads, r.n ≤ 0)) ∧
    (∀ pre rd rest, reads = pre ++ rd :: rest → (∀ p ∈ pre, 0 < p.n) → rd.n ≤ 0 →
      event_loop system down up fd keyStates reads =
        (event_loop system down up fd keyStates pre).map (fun l =>
          ⟨some 2, l.keyStates,
            l.trace ++ [Effect.read fd, Effect.perror "Error reading device",
              Effect.close fd],
            l.steps⟩)) ∧
    ((∀ r ∈ reads, 0 < r.n) → keyStates.length = KEY_STATE_SIZE →
      (∀ r ∈ reads, ∀ e ∈ r.events, e.type = EV_KEY →
        e.code < KEY_STATE_SIZE ∧ e.code < down.length ∧ e.code < up.length) →
      ∃ l, event_loop system down up fd keyStates reads = some l ∧ l.status = none) := by
  refine ⟨fun l hl => ⟨event_loop_status system down up fd reads keyStates l hl,
    event_loop_status_iff system down up fd reads keyStates l hl⟩, ?_, ?_⟩
  · intro pre rd rest hreads hpos hrd
    rw [hreads]
    exact event_loop_append_failure system down up fd rd rest hrd pre keyStates hpos
  · intro hpos hlen hin
    obtain ⟨l, hl, _⟩ := event_loop_total system down up fd reads keyStates hlen hin
    refine ⟨l, hl, ?_⟩
    rcases event_loop_status system down up fd reads keyStates l hl with h | h
    · exact h
    · obtain ⟨r, hr, hn⟩ := (event_loop_status_iff system down up fd reads keyStates l hl).1 h
      exact absurd (hpos r hr) (not_lt.2 hn)

set_option maxRecDepth 100000 in
/-- Witness of C12: after one processed batch a read returns 0; the loop returns 2 and
the read that would follow is never made. -/
theorem read_failure_ends_loop_witness :
    event_loop (fun _ => 0) downCommands upCommands 3 initialKeyStates
        ([⟨48, [⟨EV_KEY, 79, 1⟩, ⟨0, 0, 0⟩]⟩] ++ ⟨0, []⟩ :: [⟨48, [⟨EV_KEY, 79, 0⟩, ⟨0, 0, 0⟩]⟩]) =
      (event_loop (fun _ => 0) downCommands upCommands 3 initialKeyStates
        [⟨48, [⟨EV_KEY, 79, 1⟩, ⟨0, 0, 0⟩]⟩]).map (fun l =>
          ⟨some 2, l.keyStates,
            l.trace ++ [Effect.read 3, Effect.perror "Error reading device", Effect.close 3],
            l.steps⟩) :=
  (read_failure_ends_loop (fun _ => 0) downCommands upCommands 3 initialKeyStates _).2.1
    [⟨48, [⟨EV_KEY, 79, 1⟩, ⟨0, 0, 0⟩]⟩] ⟨0, []⟩ [⟨48, [⟨EV_KEY, 79, 0⟩, ⟨0, 0, 0⟩]⟩]
    rfl (by decide) (by decide)

end G600

/-! ## Batches: what counts for the core -/

namespace G600

theorem processBatch_cons_eq (system : CString → Int) (down up : List (Option CString))
    (ks : List Int) (e : input_event) (rest : List input_event) :
    processBatch system down up ks (e :: rest) =
      (dispatch system down up ks e).bind (fun p =>
        (processBatch system down up p.1 rest).map (fun q =>
          (q.1, (⟨e, ks, p.1, p.2⟩ : Step) :: q.2))) := by
  rw [processBatch]
  cases dispatch system down up ks e with
  | none => rfl
  | some p =>
    obtain ⟨ks1, out⟩ := p
    simp only [Option.some_bind]
    cases processBatch system down up ks1 rest with
    | none => rfl
    | some q => rfl

theorem event_loop_cons_eq (system : CString → Int) (down up : List (Option CString))
    (fd : Int) (ks : List Int) (r : ReadResult) (rest : List ReadResult) :
    event_loop system down up fd ks (r :: rest) =
      if r.n ≤ 0 then
        some ⟨some 2, ks,
          [Effect.read fd, Effect.perror "Error reading device", Effect.close fd], []⟩
      else if r.n < ((sizeof_input_event * 2 : Nat) : Int) then
        (event_loop system down up fd ks rest).map
          (fun l => { l with trace := Effect.read fd :: l.trace })
      else
        (processBatch system down up ks
            (r.events.take (r.n.toNat / sizeof_input_event))).bind (fun q =>
          (event_loop system down up fd q.1 rest).map
            (fun l => { l with
              trace := Effect.read fd :: (stepsTrace q.2 ++ l.trace)
              steps := q.2 ++ l.steps })) := by
  rw [event_loop_cons]
  split_ifs
  · rfl
  · rfl
  · cases processBatch system down up ks
        (r.events.take (r.n.toNat / sizeof_input_event)) with
    | none => rfl
    | some q => rfl

theorem launches_stepsTrace_core (s1 : List Step) :
    ∀ s2 : List Step, s1.map Step.core = s2.map Step.core →
      launches (stepsTrace s1) = launches (stepsTrace s2) := by
  induction s1 with
  | nil =>
    intro s2 h
    cases s2 with
    | nil => rfl
    | cons b bs => simp at h
  | cons a as ih =>
    intro s2 h
    cases s2 with
    | nil => simp at h
    | cons b bs =>
      simp only [List.map_cons, List.cons.injEq] at h
      have hab : launches a.out = launches b.out := by
        have := congrArg (fun c => c.2.2.2) h.1
        simpa [Step.core] using this
      simp only [stepsTrace, launches_append, hab, ih bs h.2]

/-- Two batch loops built over dispatch steps that agree on key states and launches agree
on key states and on the core of every iteration. -/
theorem batch_agree
    (D1 D2 : List Int → input_event → Option (List Int × List Effect))
    (B1 B2 : List Int → List input_event → Option (List Int × List Step))
    (hn1 : ∀ ks, B1 ks [] = some (ks, [])) (hn2 : ∀ ks, B2 ks [] = some (ks, []))
    (hc1 : ∀ ks e rest, B1 ks (e :: rest) = (D1 ks e).bind (fun p =>
      (B1 p.1 rest).map (fun q => (q.1, (⟨e, ks, p.1, p.2⟩ : Step) :: q.2))))
    (hc2 : ∀ ks e rest, B2 ks (e :: rest) = (D2 ks e).bind (fun p =>
      (B2 p.1 rest).map (fun q => (q.1, (⟨e, ks, p.1, p.2⟩ : Step) :: q.2))))
    (hD : ∀ ks e, (D1 ks e).map (fun r => (r.1, launches r.2))
      = (D2 ks e).map (fun r => (r.1, launches r.2)))
    (events : List input_event) :
    ∀ ks, (B1 ks events).map (fun q => (q.1, q.2.map Step.core))
      = (B2 ks events).map (fun q => (q.1, q.2.map Step.core)) := by
  induction events with
  | nil => intro ks; rw [hn1, hn2]
  | cons e rest ih =>
    intro ks
    rw [hc1, hc2]
    have hd := hD ks e
    cases h1 : D1 ks e with
    | none =>
      cases h2 : D2 ks e with
      | none => rfl
      | some p2 => rw [h1, h2] at hd; simp at hd
    | some p1 =>
      cases h2 : D2 ks e with
      | none => rw [h1, h2] at hd; simp at hd
      | some p2 =>
        rw [h1, h2] at hd
        simp only [Option.map_some', Option.some.injEq, Prod.mk.injEq] at hd
        obtain ⟨ha, hb⟩ := hd
        simp only [Option.some_bind]
        have hi := ih p1.1
        rw [← ha]
        cases h3 : B1 p1.1 rest with
        | none =>
          cases h4 : B2 p1.1 rest with
          | none => rfl
          | some q2 => rw [h3, h4] at hi; simp at hi
        | some q1 =>
          cases h4 : B2 p1.1 rest with
          | none => rw [h3, h4] at hi; simp at hi
          | some q2 =>
            rw [h3, h4] at hi
            simp only [Option.map_some', Option.some.injEq, Prod.mk.injEq] at hi
            simp only [Option.map_some', Option.some.injEq, Prod.mk.injEq, List.map_cons,
              List.cons.injEq, Step.core, hi.1, hi.2, hb, and_self]

/-- The core of where a loop stands: status, key states, launches and the core of the
iterations. -/
theorem loop_agree
    (B1 B2 : List Int → List input_event → Option (List Int × List Step))
    (L1 L2 : List Int → List ReadResult → Option LoopResult) (fd : Int)
    (hn1 : ∀ ks, L1 ks [] = some ⟨none, ks, [], []⟩)
    (hn2 : ∀ ks, L2 ks [] = some ⟨none, ks, [], []⟩)
    (hc1 : ∀ ks r rest, L1 ks (r :: rest) =
      if r.n ≤ 0 then
        some ⟨some 2, ks,
          [Effect.read fd, Effect.perror "Error reading device", Effect.close fd], []⟩
      else if r.n < ((sizeof_input_event * 2 : Nat) : Int) then
        (L1 ks rest).map (fun l => { l with trace := Effect.read fd :: l.trace })
      else
        (B1 ks (r.events.take (r.n.toNat / sizeof_input_event))).bind (fun q =>
          (L1 q.1 rest).map (fun l => { l with
            trace := Effect.read fd :: (stepsTrace q.2 ++ l.trace)
            steps := q.2 ++ l.steps })))
    (hc2 : ∀ ks r rest, L2 ks (r :: rest) =
      if r.n ≤ 0 then
        some ⟨some 2, ks,
          [Effect.read fd, Effect.perror "Error reading device", Effect.close fd], []⟩
      else if r.n < ((sizeof_input_event * 2 : Nat) : Int) then
        (L2 ks rest).map (fun l => { l with trace := Effect.read fd :: l.trace })
      else
        (B2 ks (r.events.take (r.n.toNat / sizeof_input_event))).bind (fun q =>
          (L2 q.1 rest).map (fun l => { l with
            trace := Effect.read fd :: (stepsTrace q.2 ++ l.trace)
            steps := q.2 ++ l.steps })))
    (hB : ∀ ks events, (B1 ks events).map (fun q => (q.1, q.2.map Step.core))
      = (B2 ks events).map (fun q => (q.1, q.2.map Step.core)))
    (reads : List ReadResult) :
    ∀ ks, (L1 ks reads).map
        (fun l => (l.status, l.keyStates, launches l.trace, l.steps.map Step.core))
      = (L2 ks reads).map
        (fun l => (l.status, l.keyStates, launches l.trace, l.steps.map Step.core)) := by
  induction reads with
  | nil => intro ks; rw [hn1, hn2]
  | cons r rest ih =>
    intro ks
    rw [hc1, hc2]
    by_cases h0 : r.n ≤ 0
    · rw [if_pos h0, if_pos h0]
    · rw [if_neg h0, if_neg h0]
      by_cases hs : r.n < ((sizeof_input_event * 2 : Nat) : Int)
      · rw [if_pos hs, if_pos hs]
        have hi := ih ks
        cases h3 : L1 ks rest with
        | none =>
          cases h4 : L2 ks rest with
          | none => rfl
          | some l2 => rw [h3, h4] at hi; simp at hi
        | some l1 =>
          cases h4 : L2 ks rest with
          | none => rw [h3, h4] at hi; simp at hi
          | some l2 =>
            rw [h3, h4] at hi
            simp only [Option.map_some', Option.some.injEq, Prod.mk.injEq] at hi
            simp only [Option.map_some', Option.some.injEq, Prod.mk.injEq, launches, hi.1,
              hi.2.1, hi.2.2.1, hi.2.2.2, and_self]
      · rw [if_neg hs, if_neg hs]
        have hb := hB ks (r.events.take (r.n.toNat / sizeof_input_event))
        cases h1 : B1 ks (r.events.take (r.n.toNat / sizeof_input_event)) with
        | none =>
          cases h2 : B2 ks (r.events.take (r.n.toNat / sizeof_input_event)) with
          | none => rfl
          | some q2 => rw [h1, h2] at hb; simp at hb
        | some q1 =>
          cases h2 : B2 ks (r.events.take (r.n.toNat / sizeof_input_event)) with
          | none => rw [h1, h2] at hb; simp at hb
          | some q2 =>
            rw [h1, h2] at hb
            simp only [Option.map_some', Option.some.injEq, Prod.mk.injEq] at hb
            obtain ⟨ha, hcore⟩ := hb
            simp only [Option.some_bind]
            rw [← ha]
            have hi := ih q1.1
            cases h3 : L1 q1.1 rest with
            | none =>
              cases h4 : L2 q1.1 rest with
              | none => rfl
              | some l2 => rw [h3, h4] at hi; simp at hi
            | some l1 =>
              cases h4 : L2 q1.1 rest with
              | none => rw [h3, h4] at hi; simp at hi
              | some l2 =>
                rw [h3, h4] at hi
                simp only [Option.map_some', Option.some.injEq, Prod.mk.injEq] at hi
                simp only [Option.map_some', Option.some.injEq, Prod.mk.injEq, launches,
                  launches_append, launches_stepsTrace_core q1.2 q2.2 hcore, List.map_append,
                  hcore, hi.1, hi.2.1, hi.2.2.1, hi.2.2.2, and_self]

end G600

/-! ## Non-key records and the result of `system` -/

namespace G600

theorem processBatch_drop_non_key (system : CString → Int) (down up : List (Option CString))
    (events : List input_event) :
    ∀ ks : List Int,
      (processBatch system down up ks events).map (fun r => (r.1, stepsTrace r.2)) =
      (processBatch system down up ks
        (events.filter (fun e => decide (e.type = EV_KEY)))).map
          (fun r => (r.1, stepsTrace r.2)) := by
  induction events with
  | nil => intro ks; rfl
  | cons e rest ih =>
    intro ks
    by_cases hk : e.type = EV_KEY
    · rw [List.filter_cons_of_pos (by simpa using hk), processBatch_cons_eq,
        processBatch_cons_eq]
      cases dispatch system down up ks e with
      | none => rfl
      | some p =>
        simp only [Option.some_bind]
        have hi := ih p.1
        cases h3 : processBatch system down up p.1 rest with
        | none =>
          cases h4 : processBatch system down up p.1
              (rest.filter (fun e => decide (e.type = EV_KEY))) with
          | none => rfl
          | some q2 => rw [h3, h4] at hi; simp at hi
        | some q1 =>
          cases h4 : processBatch system down up p.1
              (rest.filter (fun e => decide (e.type = EV_KEY))) with
          | none => rw [h3, h4] at hi; simp at hi
          | some q2 =>
            rw [h3, h4] at hi
            simp only [Option.map_some', Option.some.injEq, Prod.mk.injEq] at hi
            simp only [Option.map_some', stepsTrace, hi.1, hi.2]
    · rw [List.filter_cons_of_neg (by simpa using hk), processBatch_cons_eq,
        dispatch_not_key system down up ks e hk, ← ih ks]
      simp only [Option.some_bind]
      cases processBatch system down up ks rest with
      | none => rfl
      | some q => simp [stepsTrace]

/-- C13. Non-key records are dropped silently: a record whose type is not `EV_KEY`
leaves the key-state array unchanged and has no effect, whatever its code and value; and
processing a batch gives the same key states and the same effects (or is undefined in
the same way) as processing the batch without its non-key records. -/
theorem non_key_records_dropped (system : CString → Int) (down up : List (Option CString))
    (keyStates : List Int) (events : List input_event) :
    (∀ ev ∈ events, ev.type ≠ EV_KEY →
      dispatch system down up keyStates ev = some (keyStates, [])) ∧
    (processBatch system down up keyStates events).map (fun r => (r.1, stepsTrace r.2)) =
      (processBatch system down up keyStates
        (events.filter (fun e => decide (e.type = EV_KEY)))).map
          (fun r => (r.1, stepsTrace r.2)) :=
  ⟨fun ev _ h => dispatch_not_key system down up keyStates ev h,
    processBatch_drop_non_key system down up events keyStates⟩

/-- Witness of C13: a relative-motion record (type 2) with code 300 is dropped. -/
theorem non_key_records_dropped_witness :
    dispatch (fun _ => 0) downCommands upCommands initialKeyStates ⟨2, 300, 5⟩
      = some (initialKeyStates, []) :=
  (non_key_records_dropped (fun _ => 0) downCommands upCommands initialKeyStates
    [⟨EV_KEY, 79, 1⟩, ⟨2, 300, 5⟩]).1 ⟨2, 300, 5⟩ (by decide) (by decide)

theorem launches_runCommand_indep (system1 system2 : CString → Int)
    (cmdToRun : Option CString) :
    launches (runCommand system1 cmdToRun) = launches (runCommand system2 cmdToRun) := by
  cases cmdToRun with
  | none => rfl
  | some cmd =>
    cases cmd with
    | nil => rfl
    | cons a as =>
      by_cases h1 : system1 (a :: as) = -1 <;> by_cases h2 : system2 (a :: as) = -1 <;>
        simp [runCommand, strlen, launches, h1, h2]

theorem dispatch_indep (system1 system2 : CString → Int) (down up : List (Option CString))
    (keyStates : List Int) (ev : input_event) :
    (dispatch system1 down up keyStates ev).map (fun r => (r.1, launches r.2)) =
      (dispatch system2 down up keyStates ev).map (fun r => (r.1, launches r.2)) := by
  unfold dispatch
  by_cases hk : ev.type = EV_KEY
  · simp only [hk, if_true]
    cases keyStates[ev.code]? with
    | none => rfl
    | some state =>
      simp only
      by_cases h1 : ev.value ≠ 0 ∧ state = 0
      · simp only [if_pos h1]
        cases down[ev.code]? with
        | none => rfl
        | some cmd => simp [launches_runCommand_indep system1 system2]
      · simp only [if_neg h1]
        by_cases h2 : ev.value = 0 ∧ state = 1
        · simp only [if_pos h2]
          cases up[ev.code]? with
          | none => rfl
          | some cmd => simp [launches_runCommand_indep system1 system2]
        · simp only [if_neg h2]
  · simp [hk]

theorem processBatch_indep (system1 system2 : CString → Int)
    (down up : List (Option CString)) (events : List input_event) (ks : List Int) :
    (processBatch system1 down up ks events).map (fun q => (q.1, q.2.map Step.core)) =
      (processBatch system2 down up ks events).map (fun q => (q.1, q.2.map Step.core)) :=
  batch_agree (dispatch system1 down up) (dispatch system2 down up)
    (processBatch system1 down up) (processBatch system2 down up)
    (fun _ => rfl) (fun _ => rfl)
    (processBatch_cons_eq system1 down up) (processBatch_cons_eq system2 down up)
    (dispatch_indep system1 system2 down up) events ks

theorem event_loop_indep (system1 system2 : CString → Int)
    (down up : List (Option CString)) (fd : Int) (reads : List ReadResult)
    (ks : List Int) :
    (event_loop system1 down up fd ks reads).map
        (fun l => (l.status, l.keyStates, launches l.trace, l.steps.map Step.core)) =
      (event_loop system2 down up fd ks reads).map
        (fun l => (l.status, l.keyStates, launches l.trace, l.steps.map Step.core)) :=
  loop_agree (processBatch system1 down up) (processBatch system2 down up)
    (event_loop system1 down up fd) (event_loop system2 down up fd) fd
    (fun _ => rfl) (fun _ => rfl)
    (event_loop_cons_eq system1 down up fd) (event_loop_cons_eq system2 down up fd)
    (fun ks events => processBatch_indep system1 system2 down up events ks) reads ks

end G600

namespace G600Controller

open G600

theorem cpp_processBatch_cons_eq (system : CString → Int) (down up : List (Option CString))
    (ks : List Int) (e : input_event) (rest : List input_event) :
    processBatch system down up ks (e :: rest) =
      (dispatch system down up ks e).bind (fun p =>
        (processBatch system down up p.1 rest).map (fun q =>
          (q.1, (⟨e, ks, p.1, p.2⟩ : Step) :: q.2))) := by
  rw [processBatch]
  cases dispatch system down up ks e with
  | none => rfl
  | some p =>
    obtain ⟨ks1, out⟩ := p
    simp only [Option.some_bind]
    cases processBatch system down up ks1 rest with
    | none => rfl
    | some q => rfl

theorem processEvents_cons_eq (system : CString → Int) (down up : List (Option CString))
    (fd : Int) (ks : List Int) (r : ReadResult) (rest : List ReadResult) :
    processEvents system down up fd ks (r :: rest) =
      if r.n ≤ 0 then
        some ⟨some 2, ks,
          [Effect.read fd, Effect.perror "Error reading device", Effect.close fd], []⟩
      else if r.n < ((sizeof_input_event * 2 : Nat) : Int) then
        (processEvents system down up fd ks rest).map
          (fun l => { l with trace := Effect.read fd :: l.trace })
      else
        (processBatch system down up ks
            (r.events.take (r.n.toNat / sizeof_input_event))).bind (fun q =>
          (processEvents system down up fd q.1 rest).map
            (fun l => { l with
              trace := Effect.read fd :: (stepsTrace q.2 ++ l.trace)
              steps := q.2 ++ l.steps })) := by
  rw [processEvents]
  split_ifs
  · rfl
  · rfl
  · cases processBatch system down up ks
        (r.events.take (r.n.toNat / sizeof_input_event)) with
    | none => rfl
    | some q => rfl

theorem processBatch_agrees (system : CString → Int) (down up : List (Option CString))
    (events : List input_event) (ks : List Int) :
    (processBatch system down up ks events).map (fun q => (q.1, q.2.map Step.core)) =
      (G600.processBatch system down up ks events).map
        (fun q => (q.1, q.2.map Step.core)) :=
  batch_agree (dispatch system down up) (G600.dispatch system down up)
    (processBatch system down up) (G600.processBatch system down up)
    (fun _ => rfl) (fun _ => rfl)
    (cpp_processBatch_cons_eq system down up) (G600.processBatch_cons_eq system down up)
    (dispatch_agrees system down up) events ks

theorem processEvents_agrees (system : CString → Int) (down up : List (Option CString))
    (fd : Int) (reads : List ReadResult) (ks : List Int) :
    (processEvents system down up fd ks reads).map
        (fun l => (l.status, l.keyStates, launches l.trace, l.steps.map Step.core)) =
      (event_loop system down up fd ks reads).map
        (fun l => (l.status, l.keyStates, launches l.trace, l.steps.map Step.core)) :=
  loop_agree (processBatch system down up) (G600.processBatch system down up)
    (processEvents system down up fd) (event_loop system down up fd) fd
    (fun _ => rfl) (fun _ => rfl)
    (processEvents_cons_eq system down up fd) (event_loop_cons_eq system down up fd)
    (fun ks events => processBatch_agrees system down up events ks) reads ks

end G600Controller

/-! ## The two variants -/

namespace G600

theorem launches_scan (names : List CString) :
    ∀ r, find_g600_scan names = some r → launches r.trace = [] := by
  induction names with
  | nil =>
    intro r hr
    simp only [find_g600_scan, Option.some.injEq] at hr
    subst hr
    rfl
  | cons x xs ih =>
    intro r hr
    rw [scan_step] at hr
    by_cases hm : kPrefix <+: x ∧ kSuffix <:+ x
    · rw [if_pos hm, Option.some.injEq] at hr
      subst hr
      rfl
    · rw [if_neg hm] at hr
      exact ih r hr

theorem launches_find (dir : Option (List CString)) (found : FindResult)
    (h : find_g600 dir = some found) : launches found.trace = [] := by
  cases dir with
  | none =>
    simp only [find_g600, Option.some.injEq] at h
    subst h
    rfl
  | some names =>
    simp only [find_g600] at h
    cases hs : find_g600_scan names with
    | none => rw [hs] at h; simp at h
    | some r =>
      rw [hs, Option.map_some', Option.some.injEq] at h
      subst h
      simpa [launches] using launches_scan names r hs

theorem launches_intro : launches intro = [] := rfl

theorem launches_suggestion (e : Int) : launches (suggestion e) = [] := by
  unfold suggestion
  split_ifs <;> rfl

theorem launches_handleError (e : Int) : launches (G600Controller.handleError e) = [] := by
  unfold G600Controller.handleError
  split_ifs <;> rfl

/-- C14. A launch failure does not influence the core: whatever `system` returns for each
command (-1 or anything else), the event loop has the same status (the decision to go
on), the same key states, the same launches in the same order and the same iterations,
and is undefined on the same inputs; in `g600.c` and in `g600.cpp`. -/
theorem launch_result_ignored (system1 system2 : CString → Int)
    (down up : List (Option CString)) (fd : Int) (keyStates : List Int)
    (reads : List ReadResult) :
    (event_loop system1 down up fd keyStates reads).map
        (fun l => (l.status, l.keyStates, launches l.trace, l.steps.map Step.core)) =
      (event_loop system2 down up fd keyStates reads).map
        (fun l => (l.status, l.keyStates, launches l.trace, l.steps.map Step.core)) ∧
    (G600Controller.processEvents system1 down up fd keyStates reads).map
        (fun l => (l.status, l.keyStates, launches l.trace, l.steps.map Step.core)) =
      (G600Controller.processEvents system2 down up fd keyStates reads).map
        (fun l => (l.status, l.keyStates, launches l.trace, l.steps.map Step.core)) := by
  refine ⟨event_loop_indep system1 system2 down up fd reads keyStates, ?_⟩
  rw [G600Controller.processEvents_agrees, G600Controller.processEvents_agrees]
  exact event_loop_indep system1 system2 down up fd reads keyStates

/-- C19. The two variants are equivalent on their core: with the same tables and the same
environment, `G600Controller::run` and `main` of `g600.c` are undefined together or
return the same status, launch the same commands in the same order and go through the
same iterations with the same key states before and after each; and the key states that
`main` ends with are those of the controller. -/
theorem variants_equivalent (down up : List (Option CString)) (env : Env) :
    (G600Controller.run down up env).map
        (fun r => (r.ret, launches r.trace, r.steps.map Step.core)) =
      (main down up env).map
        (fun r => (r.status, launches r.trace, r.steps.map Step.core)) ∧
    (∀ rc rp ks, main down up env = some rc → G600Controller.run down up env = some rp →
      rc.keyStates = some ks → rp.keyStates = ks) := by
  unfold G600Controller.run main
  cases hf : find_g600 env.dir with
  | none => exact ⟨rfl, fun rc rp ks h => by simp at h⟩
  | some found =>
    have hlf := launches_find env.dir found hf
    simp only
    by_cases hr : found.ret ≠ 0
    · simp only [if_pos hr]
      refine ⟨?_, fun rc rp ks h1 _ h3 => ?_⟩
      · rw [Option.map_some', Option.map_some']
        simp only [launches_append, hlf, launches_intro, launches_suggestion,
          launches_handleError]
        rfl
      · simp only [Option.some.injEq] at h1
        subst h1
        simp at h3
    · simp only [if_neg hr]
      cases hp : found.path with
      | none => exact ⟨rfl, fun rc rp ks h => by simp at h⟩
      | some path =>
        simp only [G600Controller.initializeDevice]
        by_cases ho : env.openResult < 0
        · simp only [if_pos ho]
          refine ⟨?_, fun rc rp ks h1 _ h3 => ?_⟩
          · simp [launches_append, hlf, launches_intro, launches, sudoHint]
          · simp only [Option.some.injEq] at h1
            subst h1
            simp at h3
        · simp only [if_neg ho]
          by_cases hg : env.grabResult < 0
          · simp only [if_pos hg]
            refine ⟨?_, fun rc rp ks h1 _ h3 => ?_⟩
            · simp [launches_append, hlf, launches_intro, launches]
            · simp only [Option.some.injEq] at h1
              subst h1
              simp at h3
          · simp only [if_neg hg]
            have ha := G600Controller.processEvents_agrees env.system down up
              env.openResult env.reads initialKeyStates
            cases h1 : G600Controller.processEvents env.system down up env.openResult
                initialKeyStates env.reads with
            | none =>
              cases h2 : event_loop env.system down up env.openResult
                  initialKeyStates env.reads with
              | none => exact ⟨by simp, fun rc rp ks h => by simp at h⟩
              | some l2 => rw [h1, h2] at ha; simp at ha
            | some l1 =>
              cases h2 : event_loop env.system down up env.openResult
                  initialKeyStates env.reads with
              | none => rw [h1, h2] at ha; simp at ha
              | some l2 =>
                rw [h1, h2] at ha
                simp only [Option.map_some', Option.some.injEq, Prod.mk.injEq] at ha
                refine ⟨?_, fun rc rp ks e1 e2 e3 => ?_⟩
                · simp [launches_append, hlf, launches_intro, launches, ha.1, ha.2.2.1,
                    ha.2.2.2]
                · simp only [ne_eq, not_true_eq_false, if_false, Option.some.injEq] at e1 e2
                  subst e1; subst e2
                  simp only [Option.some.injEq] at e3
                  rw [← e3]
                  exact ha.2.1


set_option maxRecDepth 100000 in
/-- Witness of C19: the tables of `g600.cpp`, a device opened as descriptor 3, one batch
(press, autorepeat and release of scancode 79) and then a failing read. -/
theorem variants_equivalent_witness :
    (G600Controller.run G600Controller.mainDownCommands G600Controller.mainUpCommands
        ⟨some ["usb-Logitech_Gaming_Mouse_G600_A-if01-event-kbd".toList], 3, 0,
          [⟨72, [⟨EV_KEY, 79, 1⟩, ⟨EV_KEY, 79, 2⟩, ⟨EV_KEY, 79, 0⟩]⟩, ⟨0, []⟩],
          fun _ => 0⟩).map
        (fun r => (r.ret, launches r.trace, r.steps.map Step.core)) =
      (main G600Controller.mainDownCommands G600Controller.mainUpCommands
        ⟨some ["usb-Logitech_Gaming_Mouse_G600_A-if01-event-kbd".toList], 3, 0,
          [⟨72, [⟨EV_KEY, 79, 1⟩, ⟨EV_KEY, 79, 2⟩, ⟨EV_KEY, 79, 0⟩]⟩, ⟨0, []⟩],
          fun _ => 0⟩).map
        (fun r => (r.status, launches r.trace, r.steps.map Step.core)) :=
  (variants_equivalent G600Controller.mainDownCommands G600Controller.mainUpCommands
    ⟨some ["usb-Logitech_Gaming_Mouse_G600_A-if01-event-kbd".toList], 3, 0,
      [⟨72, [⟨EV_KEY, 79, 1⟩, ⟨EV_KEY, 79, 2⟩, ⟨EV_KEY, 79, 0⟩]⟩, ⟨0, []⟩],
      fun _ => 0⟩).1

end G600

/-! ## Start-up failures and the device handle -/

namespace G600

set_option maxRecDepth 100000 in
/-- C20 (the code at the failing input). In `g600.cpp`, with a device found and opened as
descriptor 3: when the grab fails, `initializeDevice` closes 3 and the destructor closes
3 again; when the first read fails, `processEvents` closes 3 and the destructor closes 3
again. -/
theorem handle_closed_twice :
    (G600Controller.main G600Controller.mainDownCommands G600Controller.mainUpCommands
      ⟨some ["usb-Logitech_Gaming_Mouse_G600_A-if01-event-kbd".toList], 3, -1, [],
        fun _ => 0⟩).map (fun r => (r.status, closes r.trace)) = some (some 1, [3, 3]) ∧
    (G600Controller.main G600Controller.mainDownCommands G600Controller.mainUpCommands
      ⟨some ["usb-Logitech_Gaming_Mouse_G600_A-if01-event-kbd".toList], 3, 0, [⟨0, []⟩],
        fun _ => 0⟩).map (fun r => (r.status, closes r.trace)) = some (some 2, [3, 3]) := by
  decide

/-- C15. Missing directory: when `opendir` fails, `main` returns 1 (the code of
`find_g600` for that case), prints the suggestion that names the directory and not the
one that names the device prefix, and performs no `open`, no grab, no `read` and no
`close`; so does `G600Controller::run` with its own wording, leaving `fd` at -1. -/
theorem missing_directory (down up : List (Option CString)) (env : Env)
    (hdir : env.dir = none) :
    (∃ r, main down up env = some r ∧ r.status = some 1 ∧
      Effect.printf "Suggestion: Check whether the directory /dev/input/by-id/ exists and fix it by editing \"g600.c\".\n"
        ∈ r.trace ∧
      Effect.printf "Suggestion: Check whether a device with the prefix usb-Logitech_Gaming_Mouse_G600_ exists in /dev/input/by-id/ and fix it by editing \"g600.c\".\n"
        ∉ r.trace ∧
      (∀ e ∈ r.trace, e.onDevice = false)) ∧
    (∃ r, G600Controller.run down up env = some r ∧ r.ret = some 1 ∧ r.fd = -1 ∧
      Effect.printf "Suggestion: Check whether the directory /dev/input/by-id/ exists and fix it by editing the source code.\n"
        ∈ r.trace ∧
      Effect.printf "Suggestion: Check whether a device with the prefix usb-Logitech_Gaming_Mouse_G600_ exists in /dev/input/by-id/ and fix it by editing the source code.\n"
        ∉ r.trace ∧
      (∀ e ∈ r.trace, e.onDevice = false)) := by
  constructor
  · refine ⟨_, by simp only [main, hdir, find_g600]; rfl, rfl, ?_, ?_, ?_⟩
    · decide
    · decide
    · decide
  · refine ⟨_, by simp only [G600Controller.run, hdir, find_g600]; rfl, rfl, rfl, ?_, ?_, ?_⟩
    · decide
    · decide
    · decide

/-- Witness of C15: the program of `g600.c` when `/dev/input/by-id/` cannot be opened. -/
theorem missing_directory_witness :
    ∃ r, main downCommands upCommands ⟨none, 3, 0, [], fun _ => 0⟩ = some r ∧
      r.status = some 1 ∧
      Effect.printf "Suggestion: Check whether the directory /dev/input/by-id/ exists and fix it by editing \"g600.c\".\n"
        ∈ r.trace ∧
      Effect.printf "Suggestion: Check whether a device with the prefix usb-Logitech_Gaming_Mouse_G600_ exists in /dev/input/by-id/ and fix it by editing \"g600.c\".\n"
        ∉ r.trace ∧
      (∀ e ∈ r.trace, e.onDevice = false) :=
  (missing_directory downCommands upCommands ⟨none, 3, 0, [], fun _ => 0⟩ rfl).1

end G600

namespace G600

theorem closes_append (xs ys : List Effect) :
    closes (xs ++ ys) = closes xs ++ closes ys := by
  induction xs with
  | nil => rfl
  | cons x xs ih => cases x <;> simp [closes, ih]

theorem closes_runCommand (system : CString → Int) (cmdToRun : Option CString) :
    closes (runCommand system cmdToRun) = [] := by
  cases cmdToRun with
  | none => rfl
  | some cmd =>
    cases cmd with
    | nil => rfl
    | cons a as =>
      by_cases h : system (a :: as) = -1 <;> simp [runCommand, strlen, closes, h]

theorem closes_dispatch (system : CString → Int) (down up : List (Option CString))
    (ks : List Int) (e : input_event) (p : List Int × List Effect)
    (h : dispatch system down up ks e = some p) : closes p.2 = [] := by
  unfold dispatch at h
  by_cases hk : e.type = EV_KEY
  · simp only [hk, if_true] at h
    cases hs : ks[e.code]? with
    | none => rw [hs] at h; simp at h
    | some state =>
      rw [hs] at h
      simp only at h
      by_cases h1 : e.value ≠ 0 ∧ state = 0
      · rw [if_pos h1] at h
        cases hd : down[e.code]? with
        | none => rw [hd] at h; simp at h
        | some cmd =>
          rw [hd] at h
          simp only [Option.some.injEq] at h
          subst h
          exact closes_runCommand system cmd
      · rw [if_neg h1] at h
        by_cases h2 : e.value = 0 ∧ state = 1
        · rw [if_pos h2] at h
          cases hu : up[e.code]? with
          | none => rw [hu] at h; simp at h
          | some cmd =>
            rw [hu] at h
            simp only [Option.some.injEq] at h
            subst h
            exact closes_runCommand system cmd
        · rw [if_neg h2, Option.some.injEq] at h
          subst h
          rfl
  · rw [if_neg hk, Option.some.injEq] at h
    subst h
    rfl

/-- A batch loop over dispatch steps that close nothing closes nothing. -/
theorem batch_closes
    (D : List Int → input_event → Option (List Int × List Effect))
    (B : List Int → List input_event → Option (List Int × List Step))
    (hn : ∀ ks, B ks [] = some (ks, []))
    (hc : ∀ ks e rest, B ks (e :: rest) = (D ks e).bind (fun p =>
      (B p.1 rest).map (fun q => (q.1, (⟨e, ks, p.1, p.2⟩ : Step) :: q.2))))
    (hD : ∀ ks e p, D ks e = some p → closes p.2 = [])
    (events : List input_event) :
    ∀ ks q, B ks events = some q → closes (stepsTrace q.2) = [] := by
  induction events with
  | nil =>
    intro ks q h
    rw [hn, Option.some.injEq] at h
    subst h
    rfl
  | cons e rest ih =>
    intro ks q h
    rw [hc] at h
    cases h1 : D ks e with
    | none => rw [h1] at h; simp at h
    | some p =>
      rw [h1, Option.some_bind] at h
      cases h2 : B p.1 rest with
      | none => rw [h2] at h; simp at h
      | some q1 =>
        rw [h2, Option.map_some', Option.some.injEq] at h
        subst h
        simp only [stepsTrace, closes_append, hD ks e p h1, ih p.1 q1 h2, List.append_nil]

/-- An event loop closes the descriptor exactly when it returns, and then once. -/
theorem loop_closes
    (B : List Int → List input_event → Option (List Int × List Step))
    (L : List Int → List ReadResult → Option LoopResult) (fd : Int)
    (hn : ∀ ks, L ks [] = some ⟨none, ks, [], []⟩)
    (hc : ∀ ks r rest, L ks (r :: rest) =
      if r.n ≤ 0 then
        some ⟨some 2, ks,
          [Effect.read fd, Effect.perror "Error reading device", Effect.close fd], []⟩
      else if r.n < ((sizeof_input_event * 2 : Nat) : Int) then
        (L ks rest).map (fun l => { l with trace := Effect.read fd :: l.trace })
      else
        (B ks (r.events.take (r.n.toNat / sizeof_input_event))).bind (fun q =>
          (L q.1 rest).map (fun l => { l with
            trace := Effect.read fd :: (stepsTrace q.2 ++ l.trace)
            steps := q.2 ++ l.steps })))
    (hB : ∀ ks events q, B ks events = some q → closes (stepsTrace q.2) = [])
    (reads : List ReadResult) :
    ∀ ks l, L ks reads = some l →
      closes l.trace = (match l.status with
        | none => []
        | some _ => [fd]) := by
  induction reads with
  | nil =>
    intro ks l h
    rw [hn, Option.some.injEq] at h
    subst h
    rfl
  | cons r rest ih =>
    intro ks l h
    rw [hc] at h
    by_cases h0 : r.n ≤ 0
    · rw [if_pos h0, Option.some.injEq] at h
      subst h
      rfl
    · rw [if_neg h0] at h
      by_cases hs : r.n < ((sizeof_input_event * 2 : Nat) : Int)
      · rw [if_pos hs] at h
        cases h3 : L ks rest with
        | none => rw [h3] at h; simp at h
        | some l1 =>
          rw [h3, Option.map_some', Option.some.injEq] at h
          subst h
          simpa [closes] using ih ks l1 h3
      · rw [if_neg hs] at h
        cases h1 : B ks (r.events.take (r.n.toNat / sizeof_input_event)) with
        | none => rw [h1] at h; simp at h
        | some q =>
          rw [h1, Option.some_bind] at h
          cases h3 : L q.1 rest with
          | none => rw [h3] at h; simp at h
          | some l1 =>
            rw [h3, Option.map_some', Option.some.injEq] at h
            subst h
            simpa [closes, closes_append, hB ks _ q h1] using ih q.1 l1 h3

theorem closes_event_loop (system : CString → Int) (down up : List (Option CString))
    (fd : Int) (reads : List ReadResult) (ks : List Int) (l : LoopResult)
    (h : event_loop system down up fd ks reads = some l) :
    closes l.trace = (match l.status with
      | none => []
      | some _ => [fd]) :=
  loop_closes (processBatch system down up) (event_loop system down up fd) fd
    (fun _ => rfl) (event_loop_cons_eq system down up fd)
    (fun ks events q hq =>
      batch_closes (dispatch system down up) (processBatch system down up) (fun _ => rfl)
        (processBatch_cons_eq system down up) (closes_dispatch system down up) events ks q hq)
    reads ks l h

theorem closes_scan (names : List CString) :
    ∀ r, find_g600_scan names = some r → closes r.trace = [] := by
  induction names with
  | nil =>
    intro r hr
    simp only [find_g600_scan, Option.some.injEq] at hr
    subst hr
    rfl
  | cons x xs ih =>
    intro r hr
    rw [scan_step] at hr
    by_cases hm : kPrefix <+: x ∧ kSuffix <:+ x
    · rw [if_pos hm, Option.some.injEq] at hr
      subst hr
      rfl
    · rw [if_neg hm] at hr
      exact ih r hr

theorem closes_find (dir : Option (List CString)) (found : FindResult)
    (h : find_g600 dir = some found) : closes found.trace = [] := by
  cases dir with
  | none =>
    simp only [find_g600, Option.some.injEq] at h
    subst h
    rfl
  | some names =>
    simp only [find_g600] at h
    cases hs : find_g600_scan names with
    | none => rw [hs] at h; simp at h
    | some r =>
      rw [hs, Option.map_some', Option.some.injEq] at h
      subst h
      simpa [closes] using closes_scan names r hs

theorem closes_intro : closes intro = [] := rfl

end G600

namespace G600Controller

open G600

theorem closes_runIfConfigured (system : CString → Int) (cmdToRun : Option CString) :
    closes (runIfConfigured system cmdToRun) = [] := by
  cases cmdToRun with
  | none => rfl
  | some cmd =>
    cases cmd with
    | nil => rfl
    | cons a as =>
      by_cases h : system (a :: as) = -1 <;>
        simp [runIfConfigured, executeCommand, strlen, closes, h]

theorem cpp_closes_dispatch (system : CString → Int) (down up : List (Option CString))
    (ks : List Int) (e : input_event) (p : List Int × List Effect)
    (h : dispatch system down up ks e = some p) : closes p.2 = [] := by
  unfold dispatch at h
  by_cases hk : e.type = EV_KEY
  · simp only [hk, if_true] at h
    cases hs : ks[e.code]? with
    | none => rw [hs] at h; simp at h
    | some state =>
      rw [hs] at h
      simp only at h
      by_cases h1 : e.value ≠ 0 ∧ state = 0
      · rw [if_pos h1] at h
        cases hd : down[e.code]? with
        | none => rw [hd] at h; simp at h
        | some cmd =>
          rw [hd] at h
          simp only [Option.some.injEq] at h
          subst h
          simpa [closes] using closes_runIfConfigured system cmd
      · rw [if_neg h1] at h
        by_cases h2 : e.value = 0 ∧ state = 1
        · rw [if_pos h2] at h
          cases hu : up[e.code]? with
          | none => rw [hu] at h; simp at h
          | some cmd =>
            rw [hu] at h
            simp only [Option.some.injEq] at h
            subst h
            simpa [closes] using closes_runIfConfigured system cmd
        · rw [if_neg h2, Option.some.injEq] at h
          subst h
          rfl
  · rw [if_neg hk, Option.some.injEq] at h
    subst h
    rfl

theorem closes_processEvents (system : CString → Int) (down up : List (Option CString))
    (fd : Int) (reads : List ReadResult) (ks : List Int) (l : LoopResult)
    (h : processEvents system down up fd ks reads = some l) :
    closes l.trace = (match l.status with
      | none => []
      | some _ => [fd]) :=
  loop_closes (processBatch system down up) (processEvents system down up fd) fd
    (fun _ => rfl) (processEvents_cons_eq system down up fd)
    (fun ks events q hq =>
      batch_closes (dispatch system down up) (processBatch system down up) (fun _ => rfl)
        (cpp_processBatch_cons_eq system down up) (cpp_closes_dispatch system down up) events ks q hq)
    reads ks l h

end G600Controller

namespace G600

theorem main_closes (down up : List (Option CString)) (env : Env) (names : List CString)
    (hdir : env.dir = some names) (hm : ∃ x ∈ names, kPrefix <+: x ∧ kSuffix <:+ x)
    (r : Run) (h : main down up env = some r) :
    closes r.trace =
      if env.openResult < 0 then [] else
        (match r.status with
          | none => []
          | some _ => [env.openResult]) := by
  obtain ⟨found, p, hf, h0, hp⟩ := find_g600_found names hm
  have hcf := closes_find _ found hf
  simp only [main, hdir, hf, h0, hp, ne_eq, not_true_eq_false, if_false] at h
  by_cases ho : env.openResult < 0
  · simp only [ho, if_true, Option.some.injEq] at h
    subst h
    simp only [ho, if_true, closes_append, closes_intro, hcf]
    rfl
  · simp only [ho, if_false] at h
    by_cases hg : env.grabResult < 0
    · simp only [hg, if_true, Option.some.injEq] at h
      subst h
      simp only [ho, if_false, closes_append, closes_intro, hcf]
      rfl
    · simp only [hg, if_false] at h
      cases hl : event_loop env.system down up env.openResult initialKeyStates env.reads with
      | none => rw [hl] at h; simp at h
      | some l =>
        rw [hl] at h
        simp only [Option.some.injEq] at h
        subst h
        simp only [ho, if_false, closes_append, closes_intro, hcf,
          closes_event_loop _ _ _ _ _ _ l hl]
        rfl

end G600

namespace G600Controller

open G600

/-- In `g600.cpp` every execution that opened the device and returned has closed the
descriptor twice: once in `initializeDevice` or `processEvents`, once in the
destructor. -/
theorem cpp_main_closes (down up : List (Option CString)) (env : Env) (names : List CString)
    (hdir : env.dir = some names) (hm : ∃ x ∈ names, kPrefix <+: x ∧ kSuffix <:+ x)
    (r : Run) (h : main down up env = some r) :
    closes r.trace =
      if env.openResult < 0 then [] else
        (match r.status with
          | none => []
          | some _ => [env.openResult, env.openResult]) := by
  obtain ⟨found, p, hf, h0, hp⟩ := find_g600_found names hm
  have hcf := closes_find _ found hf
  unfold main at h
  by_cases hlen : KEY_STATE_SIZE ≤ down.length ∧ KEY_STATE_SIZE ≤ up.length
  · rw [if_pos hlen] at h
    by_cases ho : env.openResult < 0
    · have hrun : run (List.take KEY_STATE_SIZE down) (List.take KEY_STATE_SIZE up) env =
          some ⟨some 1, env.openResult, initialKeyStates,
            found.trace ++ [Effect.openRdonly p, Effect.perror "Error opening device",
              sudoHint], []⟩ := by
        simp [run, hdir, hf, h0, hp, initializeDevice, ho]
      rw [hrun] at h
      simp only [Option.some.injEq] at h
      subst h
      have hd : destructor env.openResult = [] := by
        unfold destructor; rw [if_neg (by omega)]
      simp only [ho, if_true, closes_append, closes_intro, hcf, hd]
      rfl
    · have hd : destructor env.openResult = [Effect.close env.openResult] := by
        unfold destructor; rw [if_pos (by omega)]
      by_cases hg : env.grabResult < 0
      · have hrun : run (List.take KEY_STATE_SIZE down) (List.take KEY_STATE_SIZE up) env =
            some ⟨some 1, env.openResult, initialKeyStates,
              found.trace ++ [Effect.openRdonly p, Effect.ioctlGrab env.openResult,
                Effect.perror "Error grabbing device", Effect.close env.openResult], []⟩ := by
          simp [run, hdir, hf, h0, hp, initializeDevice, ho, hg]
        rw [hrun] at h
        simp only [Option.some.injEq] at h
        subst h
        simp only [ho, if_false, closes_append, closes_intro, hcf, hd]
        rfl
      · cases hl : processEvents env.system (List.take KEY_STATE_SIZE down)
            (List.take KEY_STATE_SIZE up) env.openResult initialKeyStates env.reads with
        | none =>
          have hrun : run (List.take KEY_STATE_SIZE down) (List.take KEY_STATE_SIZE up) env
              = none := by
            simp [run, hdir, hf, h0, hp, initializeDevice, ho, hg, hl]
          rw [hrun] at h
          simp at h
        | some l =>
          have hrun : run (List.take KEY_STATE_SIZE down) (List.take KEY_STATE_SIZE up) env =
              some ⟨l.status, env.openResult, l.keyStates,
                found.trace ++ [Effect.openRdonly p, Effect.ioctlGrab env.openResult]
                  ++ [Effect.printf "G600 controller started successfully.\n\n"] ++ l.trace,
                l.steps⟩ := by
            simp [run, hdir, hf, h0, hp, initializeDevice, ho, hg, hl]
          rw [hrun] at h
          simp only [Option.some.injEq] at h
          subst h
          have hc := closes_processEvents _ _ _ _ _ _ l hl
          cases hst : l.status with
          | none =>
            rw [hst] at hc
            simp only [ho, if_false, closes_append, closes_intro, hcf, hc, hst]
            rfl
          | some s =>
            rw [hst] at hc
            simp only [ho, if_false, closes_append, closes_intro, hcf, hc, hst, hd]
            rfl
  · rw [if_neg hlen] at h
    simp at h

end G600Controller

namespace G600

/-- C16. The device handle is released on every fatal exit path.  With a device found:
when `open` fails, `main` returns 1 and nothing is closed; when `open` succeeds, every
execution of `main` that returns has closed the descriptor (exactly once); such
executions are the grab failure (status 1) and every read failure (status 2).  In
`g600.cpp` too nothing is closed when `open` fails, and the descriptor has been closed
whenever `main` returns after a successful `open`. -/
theorem handle_released (down up : List (Option CString)) (env : Env)
    (names : List CString) (hdir : env.dir = some names)
    (hm : ∃ x ∈ names, kPrefix <+: x ∧ kSuffix <:+ x) :
    (env.openResult < 0 →
      ∃ r, main down up env = some r ∧ r.status = some 1 ∧ closes r.trace = []) ∧
    (0 ≤ env.openResult → ∀ r s, main down up env = some r → r.status = some s →
      closes r.trace = [env.openResult]) ∧
    (0 ≤ env.openResult → env.grabResult < 0 →
      ∃ r, main down up env = some r ∧ r.status = some 1) ∧
    (0 ≤ env.openResult → 0 ≤ env.grabResult →
      ∀ pre rd rest, env.reads = pre ++ rd :: rest → rd.n ≤ 0 → (∀ p ∈ pre, 0 < p.n) →
        (∀ p ∈ pre, ∀ e ∈ p.events, e.type = EV_KEY →
          e.code < KEY_STATE_SIZE ∧ e.code < down.length ∧ e.code < up.length) →
        ∃ r, main down up env = some r ∧ r.status = some 2) ∧
    (env.openResult < 0 → ∀ r, G600Controller.main down up env = some r →
      closes r.trace = []) ∧
    (0 ≤ env.openResult → ∀ r s, G600Controller.main down up env = some r →
      r.status = some s → env.openResult ∈ closes r.trace) := by
  obtain ⟨found, p, hf, h0, hp⟩ := find_g600_found names hm
  refine ⟨?_, ?_, ?_, ?_, ?_, ?_⟩
  · intro ho
    have hmain : ∃ r, main down up env = some r ∧ r.status = some 1 := by
      simp only [main, hdir, hf, h0, hp, ho]
      exact ⟨_, rfl, rfl⟩
    obtain ⟨r, hr, hs⟩ := hmain
    refine ⟨r, hr, hs, ?_⟩
    rw [main_closes down up env names hdir hm r hr, if_pos ho]
  · intro ho r s hr hs
    rw [main_closes down up env names hdir hm r hr, if_neg (not_lt.2 ho), hs]
  · intro ho hg
    simp only [main, hdir, hf, h0, hp, not_lt.2 ho, hg]
    exact ⟨_, rfl, rfl⟩
  · intro ho hg pre rd rest hreads hrd hpos hin
    obtain ⟨l, hl, hs⟩ := event_loop_read_failure env.system down up env.openResult rd rest
      hrd pre initialKeyStates initialKeyStates_length hpos hin
    simp only [main, hdir, hf, h0, hp, not_lt.2 ho, not_lt.2 hg, hreads, hl]
    exact ⟨_, rfl, hs⟩
  · intro ho r hr
    rw [G600Controller.cpp_main_closes down up env names hdir hm r hr, if_pos ho]
  · intro ho r s hr hs
    rw [G600Controller.cpp_main_closes down up env names hdir hm r hr, if_neg (not_lt.2 ho), hs]
    exact List.mem_cons_self _ _

set_option maxRecDepth 100000 in
/-- Witness of C16: the program of `g600.c` with the device opened as descriptor 3, one
processed batch and then a failing read: it returns 2 and has closed 3 once. -/
theorem handle_released_witness :
    ∃ r, main downCommands upCommands
        ⟨some ["usb-Logitech_Gaming_Mouse_G600_A-if01-event-kbd".toList], 3, 0,
          [⟨48, [⟨EV_KEY, 79, 1⟩, ⟨0, 0, 0⟩]⟩, ⟨0, []⟩], fun _ => 0⟩ = some r ∧
      r.status = some 2 ∧ closes r.trace = [3] := by
  have H := handle_released downCommands upCommands
    ⟨some ["usb-Logitech_Gaming_Mouse_G600_A-if01-event-kbd".toList], 3, 0,
      [⟨48, [⟨EV_KEY, 79, 1⟩, ⟨0, 0, 0⟩]⟩, ⟨0, []⟩], fun _ => 0⟩
    ["usb-Logitech_Gaming_Mouse_G600_A-if01-event-kbd".toList] rfl
    ⟨_, List.mem_cons_self _ _, by decide⟩
  obtain ⟨r, hr, hs⟩ := H.2.2.2.1 (by decide) (by decide)
    [⟨48, [⟨EV_KEY, 79, 1⟩, ⟨0, 0, 0⟩]⟩] ⟨0, []⟩ [] rfl (by decide) (by decide) (by decide)
  exact ⟨r, hr, hs, H.2.1 (by decide) r 2 hr hs⟩

end G600

/-! ## The key states as a record of the last value -/

namespace G600

theorem dispatch_pointwise (system : CString → Int) (down up : List (Option CString))
    (ks : List Int) (e : input_event) (hlen : ks.length = KEY_STATE_SIZE)
    (h01 : ∀ c < KEY_STATE_SIZE, ks[c]? = some 0 ∨ ks[c]? = some 1)
    (hin : e.type = EV_KEY →
      e.code < KEY_STATE_SIZE ∧ e.code < down.length ∧ e.code < up.length) :
    ∃ ks1 out, dispatch system down up ks e = some (ks1, out) ∧
      ks1.length = KEY_STATE_SIZE ∧
      ∀ c < KEY_STATE_SIZE, ks1[c]? =
        if e.type = EV_KEY ∧ e.code = c then some (if e.value ≠ 0 then 1 else 0)
        else ks[c]? := by
  by_cases hk : e.type = EV_KEY
  · obtain ⟨hc, hd, hu⟩ := hin hk
    obtain ⟨t, d, v⟩ := e
    simp only at hk hc hd hu ⊢
    subst hk
    have hgd : down[d]? = some down[d] := List.getElem?_eq_getElem hd
    have hgu : up[d]? = some up[d] := List.getElem?_eq_getElem hu
    have hdl : d < ks.length := by omega
    rcases h01 d hc with hst | hst
    · rw [dispatch_key system down up ks d v 0 hst]
      by_cases hv : v ≠ 0
      · rw [if_pos ⟨hv, rfl⟩, hgd]
        refine ⟨_, _, rfl, by simpa using hlen, fun c _ => ?_⟩
        by_cases hdc : d = c
        · subst hdc; simp [hv, hdl]
        · simp [hdc, List.getElem?_set_ne hdc]
      · have hv0 : v = 0 := not_not.1 hv
        rw [if_neg (by simp [hv0]), if_neg (by simp)]
        refine ⟨_, _, rfl, hlen, fun c _ => ?_⟩
        by_cases hdc : d = c
        · subst hdc; simp [hv0, hst]
        · simp [hdc]
    · rw [dispatch_key system down up ks d v 1 hst]
      by_cases hv : v ≠ 0
      · rw [if_neg (by simp), if_neg (by simp [hv])]
        refine ⟨_, _, rfl, hlen, fun c _ => ?_⟩
        by_cases hdc : d = c
        · subst hdc; simp [hv, hst]
        · simp [hdc]
      · have hv0 : v = 0 := not_not.1 hv
        rw [if_neg (by simp [hv0]), if_pos ⟨hv0, rfl⟩, hgu]
        refine ⟨_, _, rfl, by simpa using hlen, fun c _ => ?_⟩
        by_cases hdc : d = c
        · subst hdc; simp [hv0, hdl]
        · simp [hdc, List.getElem?_set_ne hdc]
  · refine ⟨_, _, dispatch_not_key system down up ks e hk, hlen, fun c _ => ?_⟩
    simp [hk]

theorem processBatch_last (system : CString → Int) (down up : List (Option CString))
    (events : List input_event) :
    ∀ ks : List Int, ks.length = KEY_STATE_SIZE →
      (∀ c < KEY_STATE_SIZE, ks[c]? = some 0 ∨ ks[c]? = some 1) →
      (∀ e ∈ events, e.type = EV_KEY →
        e.code < KEY_STATE_SIZE ∧ e.code < down.length ∧ e.code < up.length) →
      ∃ ks2 steps, processBatch system down up ks events = some (ks2, steps) ∧
        ks2.length = KEY_STATE_SIZE ∧
        ∀ c < KEY_STATE_SIZE, ks2[c]? =
          (match lastValue c events with
            | some v => some (if v ≠ 0 then 1 else 0)
            | none => ks[c]?) := by
  induction events with
  | nil => intro ks hlen _ _; exact ⟨ks, [], rfl, hlen, fun c _ => rfl⟩
  | cons e rest ih =>
    intro ks hlen h01 hin
    obtain ⟨ks1, out, hd, hlen1, hpt⟩ :=
      dispatch_pointwise system down up ks e hlen h01 (hin e (List.mem_cons_self _ _))
    have h01' : ∀ c < KEY_STATE_SIZE, ks1[c]? = some 0 ∨ ks1[c]? = some 1 := by
      intro c hc
      rw [hpt c hc]
      by_cases hcond : e.type = EV_KEY ∧ e.code = c
      · rw [if_pos hcond]
        by_cases hv : e.value ≠ 0
        · right; rw [if_pos hv]
        · left; rw [if_neg hv]
      · rw [if_neg hcond]; exact h01 c hc
    obtain ⟨ks2, steps, hp, hlen2, hlast⟩ :=
      ih ks1 hlen1 h01' (fun x hx => hin x (List.mem_cons_of_mem _ hx))
    refine ⟨ks2, _, processBatch_cons system down up ks ks1 ks2 e rest out steps hd hp,
      hlen2, fun c hc => ?_⟩
    rw [hlast c hc, lastValue]
    cases hl : lastValue c rest with
    | some v => rfl
    | none =>
      simp only
      rw [hpt c hc]
      by_cases hcond : e.type = EV_KEY ∧ e.code = c
      · rw [if_pos hcond, if_pos hcond]
      · rw [if_neg hcond, if_neg hcond]

end G600

/-! ## Independence of the scancodes -/

namespace G600

theorem mem_launches_runCommand (system : CString → Int) (cmdToRun : Option CString)
    (cmd : CString) (h : cmd ∈ launches (runCommand system cmdToRun)) :
    cmdToRun = some cmd := by
  cases cmdToRun with
  | none => simp [runCommand, launches] at h
  | some c =>
    cases c with
    | nil => simp [runCommand, strlen, launches] at h
    | cons a as =>
      by_cases hs : system (a :: as) = -1 <;>
        simp [runCommand, strlen, launches, hs] at h <;> rw [h]

theorem dispatch_frame (system : CString → Int) (down up : List (Option CString))
    (ks : List Int) (e : input_event) (ks1 : List Int) (out : List Effect)
    (h : dispatch system down up ks e = some (ks1, out)) :
    (∀ d, d ≠ e.code → ks1[d]? = ks[d]?) ∧
    (∀ cmd ∈ launches out,
      down[e.code]? = some (some cmd) ∨ up[e.code]? = some (some cmd)) := by
  unfold dispatch at h
  by_cases hk : e.type = EV_KEY
  · simp only [hk, if_true] at h
    cases hs : ks[e.code]? with
    | none => rw [hs] at h; simp at h
    | some state =>
      rw [hs] at h
      simp only at h
      by_cases h1 : e.value ≠ 0 ∧ state = 0
      · rw [if_pos h1] at h
        cases hd : down[e.code]? with
        | none => rw [hd] at h; simp at h
        | some c =>
          rw [hd] at h
          simp only [Option.some.injEq, Prod.mk.injEq] at h
          obtain ⟨hks, hout⟩ := h
          subst hks; subst hout
          refine ⟨fun d hde => List.getElem?_set_ne (Ne.symm hde), fun cmd hcmd => ?_⟩
          left
          rw [mem_launches_runCommand system c cmd hcmd]
      · rw [if_neg h1] at h
        by_cases h2 : e.value = 0 ∧ state = 1
        · rw [if_pos h2] at h
          cases hu : up[e.code]? with
          | none => rw [hu] at h; simp at h
          | some c =>
            rw [hu] at h
            simp only [Option.some.injEq, Prod.mk.injEq] at h
            obtain ⟨hks, hout⟩ := h
            subst hks; subst hout
            refine ⟨fun d hde => List.getElem?_set_ne (Ne.symm hde), fun cmd hcmd => ?_⟩
            right
            rw [mem_launches_runCommand system c cmd hcmd]
        · rw [if_neg h2] at h
          simp only [Option.some.injEq, Prod.mk.injEq] at h
          obtain ⟨hks, hout⟩ := h
          subst hks; subst hout
          exact ⟨fun _ _ => rfl, fun cmd hcmd => by simp [launches] at hcmd⟩
  · rw [if_neg hk] at h
    simp only [Option.some.injEq, Prod.mk.injEq] at h
    obtain ⟨hks, hout⟩ := h
    subst hks; subst hout
    exact ⟨fun _ _ => rfl, fun cmd hcmd => by simp [launches] at hcmd⟩

theorem dispatch_same_at (system : CString → Int) (down up : List (Option CString))
    (ks ks' : List Int) (e : input_event)
    (hlen : ks.length = KEY_STATE_SIZE) (hlen' : ks'.length = KEY_STATE_SIZE)
    (hsame : ks[e.code]? = ks'[e.code]?)
    (hin : e.type = EV_KEY →
      e.code < KEY_STATE_SIZE ∧ e.code < down.length ∧ e.code < up.length) :
    ∃ ks1 ks1' out, dispatch system down up ks e = some (ks1, out) ∧
      dispatch system down up ks' e = some (ks1', out) ∧
      ks1.length = KEY_STATE_SIZE ∧ ks1'.length = KEY_STATE_SIZE ∧
      ks1[e.code]? = ks1'[e.code]? := by
  by_cases hk : e.type = EV_KEY
  · obtain ⟨hc, hd, hu⟩ := hin hk
    obtain ⟨t, d, v⟩ := e
    simp only at hk hc hd hu hsame ⊢
    subst hk
    have hdl : d < ks.length := by omega
    have hdl' : d < ks'.length := by omega
    have hst : ks[d]? = some ks[d] := List.getElem?_eq_getElem hdl
    have hst' : ks'[d]? = some ks[d] := by rw [← hsame, hst]
    have hgd : down[d]? = some down[d] := List.getElem?_eq_getElem hd
    have hgu : up[d]? = some up[d] := List.getElem?_eq_getElem hu
    rw [dispatch_key system down up ks d v ks[d] hst,
      dispatch_key system down up ks' d v ks[d] hst']
    by_cases h1 : v ≠ 0 ∧ ks[d] = 0
    · rw [if_pos h1, if_pos h1, hgd]
      exact ⟨_, _, _, rfl, rfl, by simpa using hlen, by simpa using hlen',
        by simp [hdl, hdl']⟩
    · rw [if_neg h1, if_neg h1]
      by_cases h2 : v = 0 ∧ ks[d] = 1
      · rw [if_pos h2, if_pos h2, hgu]
        exact ⟨_, _, _, rfl, rfl, by simpa using hlen, by simpa using hlen',
          by simp [hdl, hdl']⟩
      · rw [if_neg h2, if_neg h2]
        exact ⟨_, _, _, rfl, rfl, hlen, hlen', hsame⟩
  · exact ⟨_, _, _, dispatch_not_key system down up ks e hk,
      dispatch_not_key system down up ks' e hk, hlen, hlen', hsame⟩

theorem launchesBy_filter (system : CString → Int) (down up : List (Option CString))
    (c : Nat) (events : List input_event) :
    ∀ ks ks' : List Int, ks.length = KEY_STATE_SIZE → ks'.length = KEY_STATE_SIZE →
      ks[c]? = ks'[c]? →
      (∀ e ∈ events, e.type = EV_KEY →
        e.code < KEY_STATE_SIZE ∧ e.code < down.length ∧ e.code < up.length) →
      ∃ q q', processBatch system down up ks events = some q ∧
        processBatch system down up ks'
          (events.filter (fun e => decide (e.code = c))) = some q' ∧
        launchesBy c q.2 = launchesBy c q'.2 := by
  induction events with
  | nil => intro ks ks' _ _ _ _; exact ⟨_, _, rfl, rfl, rfl⟩
  | cons e rest ih =>
    intro ks ks' hlen hlen' hsame hin
    have hrest := fun x hx => hin x (List.mem_cons_of_mem _ hx)
    have hine := hin e (List.mem_cons_self _ _)
    by_cases hec : e.code = c
    · rw [List.filter_cons_of_pos (by simpa using hec)]
      obtain ⟨ks1, ks1', out, hd, hd', hl1, hl1', hs1⟩ :=
        dispatch_same_at system down up ks ks' e hlen hlen' (by rw [hec]; exact hsame) hine
      rw [hec] at hs1
      obtain ⟨q, q', hq, hq', hL⟩ := ih ks1 ks1' hl1 hl1' hs1 hrest
      refine ⟨_, _,
        processBatch_cons system down up ks ks1 q.1 e rest out q.2 hd hq,
        processBatch_cons system down up ks' ks1' q'.1 e _ out q'.2 hd' hq', ?_⟩
      simp [launchesBy, hec, hL]
    · rw [List.filter_cons_of_neg (by simpa using hec)]
      obtain ⟨ks1, out, hd, hl1, _⟩ := dispatch_cases system down up ks e hlen hine
      have hfr := (dispatch_frame system down up ks e ks1 out hd).1 c (Ne.symm hec)
      obtain ⟨q, q', hq, hq', hL⟩ := ih ks1 ks' hl1 hlen' (by rw [hfr]; exact hsame) hrest
      refine ⟨_, q', processBatch_cons system down up ks ks1 q.1 e rest out q.2 hd hq,
        hq', ?_⟩
      simp [launchesBy, hec, hL]

/-- C18. Per-scancode independence: a step that is defined leaves `state[d]` unchanged for
every `d` other than the code of its record, and a command it launches is the press or
the release entry of that code; hence two sequences of records (indexing inside the
arrays) that have the same sub-sequence of records with code `c` cause the same launches
by `c` from the initial state. -/
theorem per_scancode_independence (system : CString → Int)
    (down up : List (Option CString)) (c : Nat) :
    (∀ (ks : List Int) (e : input_event) (ks1 : List Int) (out : List Effect),
      dispatch system down up ks e = some (ks1, out) →
      (∀ d, d ≠ e.code → ks1[d]? = ks[d]?) ∧
      (∀ cmd ∈ launches out,
        down[e.code]? = some (some cmd) ∨ up[e.code]? = some (some cmd))) ∧
    (∀ events1 events2 : List input_event,
      (∀ e ∈ events1, e.type = EV_KEY →
        e.code < KEY_STATE_SIZE ∧ e.code < down.length ∧ e.code < up.length) →
      (∀ e ∈ events2, e.type = EV_KEY →
        e.code < KEY_STATE_SIZE ∧ e.code < down.length ∧ e.code < up.length) →
      events1.filter (fun e => decide (e.code = c))
        = events2.filter (fun e => decide (e.code = c)) →
      ∃ q1 q2, processBatch system down up initialKeyStates events1 = some q1 ∧
        processBatch system down up initialKeyStates events2 = some q2 ∧
        launchesBy c q1.2 = launchesBy c q2.2) := by
  refine ⟨dispatch_frame system down up, fun events1 events2 h1 h2 hf => ?_⟩
  obtain ⟨q1, q1', hq1, hq1', hL1⟩ := launchesBy_filter system down up c events1
    initialKeyStates initialKeyStates initialKeyStates_length initialKeyStates_length rfl h1
  obtain ⟨q2, q2', hq2, hq2', hL2⟩ := launchesBy_filter system down up c events2
    initialKeyStates initialKeyStates initialKeyStates_length initialKeyStates_length rfl h2
  refine ⟨q1, q2, hq1, hq2, ?_⟩
  rw [hf, hq2'] at hq1'
  simp only [Option.some.injEq] at hq1'
  rw [hL1, hL2, hq1']

set_option maxRecDepth 100000 in
/-- Witness of C18: with the tables of `g600.c`, the records of scancode 79 cause the same
launches whether or not records of scancode 81 come in between. -/
theorem per_scancode_independence_witness :
    ∃ q1 q2,
      processBatch (fun _ => 0) downCommands upCommands initialKeyStates
        [⟨EV_KEY, 79, 1⟩, ⟨EV_KEY, 81, 1⟩, ⟨EV_KEY, 79, 0⟩, ⟨EV_KEY, 81, 0⟩] = some q1 ∧
      processBatch (fun _ => 0) downCommands upCommands initialKeyStates
        [⟨EV_KEY, 79, 1⟩, ⟨EV_KEY, 79, 0⟩] = some q2 ∧
      launchesBy 79 q1.2 = launchesBy 79 q2.2 :=
  (per_scancode_independence (fun _ => 0) downCommands upCommands 79).2
    [⟨EV_KEY, 79, 1⟩, ⟨EV_KEY, 81, 1⟩, ⟨EV_KEY, 79, 0⟩, ⟨EV_KEY, 81, 0⟩]
    [⟨EV_KEY, 79, 1⟩, ⟨EV_KEY, 79, 0⟩] (by decide) (by decide) (by decide)

end G600

/-! ## The while loop over several reads -/

namespace G600

theorem processBatch_append (system : CString → Int) (down up : List (Option CString))
    (a b : List input_event) :
    ∀ ks : List Int, processBatch system down up ks (a ++ b) =
      (processBatch system down up ks a).bind (fun q =>
        (processBatch system down up q.1 b).map (fun q2 => (q2.1, q.2 ++ q2.2))) := by
  induction a with
  | nil =>
    intro ks
    rw [List.nil_append]
    show _ = (some (ks, [])).bind _
    simp only [Option.some_bind, List.nil_append]
    cases processBatch system down up ks b with
    | none => rfl
    | some q => rfl
  | cons e rest ih =>
    intro ks
    rw [List.cons_append, processBatch_cons_eq, processBatch_cons_eq]
    cases dispatch system down up ks e with
    | none => rfl
    | some p =>
      simp only [Option.some_bind]
      rw [ih p.1]
      cases processBatch system down up p.1 rest with
      | none => rfl
      | some q =>
        simp only [Option.some_bind, Option.map_some']
        cases processBatch system down up q.1 b with
        | none => rfl
        | some q2 => rfl

/-- The key states and the iterations of the while loop over a sequence of reads are those
of the `for` loop over the records visited, in order. -/
theorem event_loop_visited (system : CString → Int) (down up : List (Option CString))
    (fd : Int) (reads : List ReadResult) :
    ∀ ks : List Int,
      (event_loop system down up fd ks reads).map (fun l => (l.keyStates, l.steps)) =
        processBatch system down up ks (visited reads) := by
  induction reads with
  | nil => intro ks; rfl
  | cons r rest ih =>
    intro ks
    rw [event_loop_cons_eq, visited]
    by_cases h0 : r.n ≤ 0
    · rw [if_pos h0, if_pos h0]; rfl
    · rw [if_neg h0, if_neg h0]
      by_cases hs : r.n < ((sizeof_input_event * 2 : Nat) : Int)
      · rw [if_pos hs, if_pos hs, ← ih ks]
        cases event_loop system down up fd ks rest with
        | none => rfl
        | some l => rfl
      · rw [if_neg hs, if_neg hs, processBatch_append]
        cases processBatch system down up ks
            (r.events.take (r.n.toNat / sizeof_input_event)) with
        | none => rfl
        | some q =>
          simp only [Option.some_bind]
          rw [← ih q.1]
          cases event_loop system down up fd q.1 rest with
          | none => rfl
          | some l => rfl

theorem mem_visited (reads : List ReadResult) (e : input_event) (h : e ∈ visited reads) :
    ∃ r ∈ reads, e ∈ r.events := by
  induction reads with
  | nil => simp [visited] at h
  | cons r rest ih =>
    rw [visited] at h
    by_cases h0 : r.n ≤ 0
    · rw [if_pos h0] at h; simp at h
    · rw [if_neg h0] at h
      by_cases hs : r.n < ((sizeof_input_event * 2 : Nat) : Int)
      · rw [if_pos hs] at h
        obtain ⟨x, hx, hex⟩ := ih h
        exact ⟨x, List.mem_cons_of_mem _ hx, hex⟩
      · rw [if_neg hs] at h
        rcases List.mem_append.1 h with h1 | h2
        · exact ⟨r, List.mem_cons_self _ _, List.mem_of_mem_take h1⟩
        · obtain ⟨x, hx, hex⟩ := ih h2
          exact ⟨x, List.mem_cons_of_mem _ hx, hex⟩

theorem stepsTrace_append (s1 s2 : List Step) :
    stepsTrace (s1 ++ s2) = stepsTrace s1 ++ stepsTrace s2 := by
  induction s1 with
  | nil => rfl
  | cons s rest ih => simp [stepsTrace, ih]

theorem event_loop_launches (system : CString → Int) (down up : List (Option CString))
    (fd : Int) (reads : List ReadResult) :
    ∀ (ks : List Int) (l : LoopResult),
      event_loop system down up fd ks reads = some l →
      launches l.trace = launches (stepsTrace l.steps) := by
  induction reads with
  | nil =>
    intro ks l h
    simp only [event_loop, Option.some.injEq] at h
    subst h
    rfl
  | cons r rest ih =>
    intro ks l h
    rw [event_loop_cons_eq] at h
    by_cases h0 : r.n ≤ 0
    · rw [if_pos h0, Option.some.injEq] at h
      subst h
      rfl
    · rw [if_neg h0] at h
      by_cases hs : r.n < ((sizeof_input_event * 2 : Nat) : Int)
      · rw [if_pos hs] at h
        cases h3 : event_loop system down up fd ks rest with
        | none => rw [h3] at h; simp at h
        | some l1 =>
          rw [h3, Option.map_some', Option.some.injEq] at h
          subst h
          simpa [launches] using ih ks l1 h3
      · rw [if_neg hs] at h
        cases h1 : processBatch system down up ks
            (r.events.take (r.n.toNat / sizeof_input_event)) with
        | none => rw [h1] at h; simp at h
        | some q =>
          rw [h1, Option.some_bind] at h
          cases h3 : event_loop system down up fd q.1 rest with
          | none => rw [h3] at h; simp at h
          | some l1 =>
            rw [h3, Option.map_some', Option.some.injEq] at h
            subst h
            simp only [launches, launches_append, stepsTrace_append, ih q.1 l1 h3]

/-- When the `for` loop over the visited records has a result, so has the while loop,
with the same key states, the same iterations and their launches. -/
theorem event_loop_of_visited (system : CString → Int) (down up : List (Option CString))
    (fd : Int) (reads : List ReadResult) (ks : List Int) (q : List Int × List Step)
    (hq : processBatch system down up ks (visited reads) = some q) :
    ∃ l, event_loop system down up fd ks reads = some l ∧
      l.keyStates = q.1 ∧ l.steps = q.2 ∧
      launches l.trace = launches (stepsTrace q.2) := by
  have hb := event_loop_visited system down up fd reads ks
  rw [hq] at hb
  cases hl : event_loop system down up fd ks reads with
  | none => rw [hl] at hb; simp at hb
  | some l =>
    rw [hl, Option.map_some', Option.some.injEq] at hb
    have h1 : l.keyStates = q.1 := by rw [← hb]
    have h2 : l.steps = q.2 := by rw [← hb]
    exact ⟨l, rfl, h1, h2, by rw [event_loop_launches system down up fd reads ks l hl, h2]⟩

end G600

namespace G600

theorem processBatch_records (system : CString → Int) (down up : List (Option CString))
    (events : List input_event) :
    ∀ (ks : List Int) (q : List Int × List Step),
      processBatch system down up ks events = some q →
      q.2.map (fun s => s.ev) = events := by
  induction events with
  | nil =>
    intro ks q h
    simp only [processBatch, Option.some.injEq] at h
    subst h
    rfl
  | cons e rest ih =>
    intro ks q h
    rw [processBatch_cons_eq] at h
    cases h1 : dispatch system down up ks e with
    | none => rw [h1] at h; simp at h
    | some p =>
      rw [h1, Option.some_bind] at h
      cases h2 : processBatch system down up p.1 rest with
      | none => rw [h2] at h; simp at h
      | some q1 =>
        rw [h2, Option.map_some', Option.some.injEq] at h
        subst h
        simp only [List.map_cons, ih p.1 q1 h2]

/-- When the key records among the visited records are `evs` and the `for` loop over `evs`
has a result, the while loop has a result with the same launches. -/
theorem loop_scenario (system : CString → Int) (down up : List (Option CString))
    (fd : Int) (reads : List ReadResult) (evs : List input_event)
    (hv : (visited reads).filter (fun e => decide (e.type = EV_KEY)) = evs)
    (ks : List Int) (steps : List Step)
    (hp : processBatch system down up initialKeyStates evs = some (ks, steps)) :
    ∃ l, event_loop system down up fd initialKeyStates reads = some l ∧
      launches l.trace = launches (stepsTrace steps) := by
  have hd := processBatch_drop_non_key system down up (visited reads) initialKeyStates
  rw [hv, hp] at hd
  cases hq : processBatch system down up initialKeyStates (visited reads) with
  | none => rw [hq] at hd; simp at hd
  | some q =>
    rw [hq] at hd
    simp only [Option.map_some', Option.some.injEq, Prod.mk.injEq] at hd
    obtain ⟨l, hl, _, _, hla⟩ :=
      event_loop_of_visited system down up fd reads initialKeyStates q hq
    exact ⟨l, hl, by rw [hla, hd.2]⟩

/-- C3. At most one launch per transition, in order.  For every sequence of reads
processed by the while loop from the initial all-Up state (and for every list of records
processed by the `for` loop), and a scancode `c` whose press command is `A` and release
command is `B` (both non-empty), the launches caused by `c` are `A, B, A, B, ...`
starting with `A`, and the number of `A`s (the odd positions) is the number of Up->Down
transitions of `c`.  The records press, press, press, release on `c` launch exactly `A`
then `B`; and with 79 -> "A" (press) and 79 -> "B" (release) the records (key, 79, 1),
(key, 79, 2), (key, 79, 0) launch exactly "A" then "B", whether they arrive in one read
or in three reads. -/
theorem launches_alternate (system : CString → Int) (down up : List (Option CString))
    (fd : Int) (c : Nat) (A B : CString) (reads : List ReadResult)
    (hc : c < KEY_STATE_SIZE)
    (hA : down[c]? = some (some A)) (hB : up[c]? = some (some B))
    (hA0 : A ≠ []) (hB0 : B ≠ [])
    (hin : ∀ r ∈ reads, ∀ e ∈ r.events, e.type = EV_KEY →
      e.code < KEY_STATE_SIZE ∧ e.code < down.length ∧ e.code < up.length) :
    (∃ l, event_loop system down up fd initialKeyStates reads = some l ∧
      launchesBy c l.steps = alternating A B (launchesBy c l.steps).length ∧
      ((launchesBy c l.steps).length + 1) / 2 = upDownTransitions c l.steps) ∧
    (∀ events : List input_event,
      (∀ e ∈ events, e.type = EV_KEY →
        e.code < KEY_STATE_SIZE ∧ e.code < down.length ∧ e.code < up.length) →
      ∃ ks steps, processBatch system down up initialKeyStates events = some (ks, steps) ∧
        launchesBy c steps = alternating A B (launchesBy c steps).length ∧
        ((launchesBy c steps).length + 1) / 2 = upDownTransitions c steps) ∧
    (∃ l, event_loop system down up fd initialKeyStates
        [⟨96, [⟨EV_KEY, c, 1⟩, ⟨EV_KEY, c, 1⟩, ⟨EV_KEY, c, 1⟩, ⟨EV_KEY, c, 0⟩]⟩] = some l ∧
      launches l.trace = [A, B]) ∧
    (∃ l, event_loop system
        ((List.replicate KEY_STATE_SIZE none).set 79 (some "A".toList))
        ((List.replicate KEY_STATE_SIZE none).set 79 (some "B".toList))
        fd initialKeyStates
        [⟨72, [⟨EV_KEY, 79, 1⟩, ⟨EV_KEY, 79, 2⟩, ⟨EV_KEY, 79, 0⟩]⟩] = some l ∧
      launches l.trace = ["A".toList, "B".toList]) ∧
    (∃ l, event_loop system
        ((List.replicate KEY_STATE_SIZE none).set 79 (some "A".toList))
        ((List.replicate KEY_STATE_SIZE none).set 79 (some "B".toList))
        fd initialKeyStates
        [⟨48, [⟨EV_KEY, 79, 1⟩, ⟨0, 0, 0⟩]⟩, ⟨48, [⟨EV_KEY, 79, 2⟩, ⟨0, 0, 0⟩]⟩,
          ⟨48, [⟨EV_KEY, 79, 0⟩, ⟨0, 0, 0⟩]⟩] = some l ∧
      launches l.trace = ["A".toList, "B".toList]) := by
  have hcA := configured_eq_some down c A hA hA0
  have hcB := configured_eq_some up c B hB hB0
  have hA79 : ((List.replicate KEY_STATE_SIZE (none : Option CString)).set 79
      (some "A".toList))[79]? = some (some "A".toList) :=
    List.getElem?_set_self (by rw [List.length_replicate]; decide)
  have hB79 : ((List.replicate KEY_STATE_SIZE (none : Option CString)).set 79
      (some "B".toList))[79]? = some (some "B".toList) :=
    List.getElem?_set_self (by rw [List.length_replicate]; decide)
  refine ⟨?_, ?_, ?_, ?_, ?_⟩
  · obtain ⟨ks, steps, hp, h0, _⟩ :=
      alternating_from system down up c A B hc hcA hcB (visited reads) initialKeyStates
        initialKeyStates_length
        (fun e he => by
          obtain ⟨r, hr, her⟩ := mem_visited reads e he
          exact hin r hr e her)
    obtain ⟨l, hl, _, hsteps, _⟩ :=
      event_loop_of_visited system down up fd reads initialKeyStates (ks, steps) hp
    refine ⟨l, hl, ?_⟩
    rw [hsteps]
    exact h0 (initialKeyStates_get c hc)
  · intro events hev
    obtain ⟨ks, steps, hp, h0, _⟩ :=
      alternating_from system down up c A B hc hcA hcB events initialKeyStates
        initialKeyStates_length hev
    exact ⟨ks, steps, hp, h0 (initialKeyStates_get c hc)⟩
  · obtain ⟨ks, steps, hp, hl⟩ :=
      press_hold_release system down up c A B hc hA hB hA0 hB0 1 (by decide) [1, 1]
        (by decide)
    obtain ⟨l, hloop, hla⟩ := loop_scenario system down up fd
      [⟨96, [⟨EV_KEY, c, 1⟩, ⟨EV_KEY, c, 1⟩, ⟨EV_KEY, c, 1⟩, ⟨EV_KEY, c, 0⟩]⟩]
      [⟨EV_KEY, c, 1⟩, ⟨EV_KEY, c, 1⟩, ⟨EV_KEY, c, 1⟩, ⟨EV_KEY, c, 0⟩]
      (by simp [visited, sizeof_input_event]) ks steps hp
    exact ⟨l, hloop, by rw [hla, hl]⟩
  · obtain ⟨ks, steps, hp, hl⟩ :=
      press_hold_release system _ _ 79 _ _ (by decide) hA79 hB79
        (by decide) (by decide) 1 (by decide) [2] (by decide)
    obtain ⟨l, hloop, hla⟩ := loop_scenario system _ _ fd
      [⟨72, [⟨EV_KEY, 79, 1⟩, ⟨EV_KEY, 79, 2⟩, ⟨EV_KEY, 79, 0⟩]⟩]
      [⟨EV_KEY, 79, 1⟩, ⟨EV_KEY, 79, 2⟩, ⟨EV_KEY, 79, 0⟩] rfl ks steps hp
    exact ⟨l, hloop, by rw [hla, hl]⟩
  · obtain ⟨ks, steps, hp, hl⟩ :=
      press_hold_release system _ _ 79 _ _ (by decide) hA79 hB79
        (by decide) (by decide) 1 (by decide) [2] (by decide)
    obtain ⟨l, hloop, hla⟩ := loop_scenario system _ _ fd
      [⟨48, [⟨EV_KEY, 79, 1⟩, ⟨0, 0, 0⟩]⟩, ⟨48, [⟨EV_KEY, 79, 2⟩, ⟨0, 0, 0⟩]⟩,
        ⟨48, [⟨EV_KEY, 79, 0⟩, ⟨0, 0, 0⟩]⟩]
      [⟨EV_KEY, 79, 1⟩, ⟨EV_KEY, 79, 2⟩, ⟨EV_KEY, 79, 0⟩] rfl ks steps hp
    exact ⟨l, hloop, by rw [hla, hl]⟩

set_option maxRecDepth 100000 in
/-- Witness of C3: the tables of `g600.c` and scancode 79 (G9); the press, the autorepeat
and the release arrive in three different reads, with a press of scancode 81 and a
short read in between, and a second press follows. -/
theorem launches_alternate_witness :
    ∃ l, event_loop (fun _ => 0) downCommands upCommands 3 initialKeyStates
        [⟨48, [⟨EV_KEY, 79, 1⟩, ⟨0, 0, 0⟩]⟩, ⟨48, [⟨EV_KEY, 79, 2⟩, ⟨EV_KEY, 81, 1⟩]⟩,
          ⟨24, [⟨EV_KEY, 79, 0⟩]⟩, ⟨48, [⟨EV_KEY, 79, 0⟩, ⟨0, 0, 0⟩]⟩,
          ⟨72, [⟨EV_KEY, 79, 1⟩, ⟨0, 0, 0⟩, ⟨EV_KEY, 81, 0⟩]⟩] = some l ∧
      launchesBy 79 l.steps
        = alternating "xdotool keydown ctrl".toList "xdotool keyup ctrl".toList
            (launchesBy 79 l.steps).length ∧
      ((launchesBy 79 l.steps).length + 1) / 2 = upDownTransitions 79 l.steps :=
  (launches_alternate (fun _ => 0) downCommands upCommands 3 79 _ _ _ (by decide)
    (by decide) (by decide) (by decide) (by decide) (by decide)).1

/-- C17. The key-state array holds the last-known logical state.  After any sequence of
reads processed by the while loop from the initial array (key records indexing inside
the arrays), the records of the iterations are the records visited, every entry of the
array is 0 or 1, for a scancode `c` with at least one visited key record `state[c]` is 1
exactly when the value of its last one was non-zero, and a scancode without a visited
key record is still 0; the same holds for the `for` loop over any list of records. -/
theorem key_state_is_last_value (system : CString → Int) (down up : List (Option CString))
    (fd : Int) (reads : List ReadResult)
    (hin : ∀ r ∈ reads, ∀ e ∈ r.events, e.type = EV_KEY →
      e.code < KEY_STATE_SIZE ∧ e.code < down.length ∧ e.code < up.length) :
    (∃ l, event_loop system down up fd initialKeyStates reads = some l ∧
      l.steps.map (fun s => s.ev) = visited reads ∧
      l.keyStates.length = KEY_STATE_SIZE ∧
      ∀ c < KEY_STATE_SIZE,
        (l.keyStates[c]? = some 0 ∨ l.keyStates[c]? = some 1) ∧
        (∀ v, lastValue c (visited reads) = some v → (l.keyStates[c]? = some 1 ↔ v ≠ 0)) ∧
        (lastValue c (visited reads) = none → l.keyStates[c]? = some 0)) ∧
    (∀ events : List input_event,
      (∀ e ∈ events, e.type = EV_KEY →
        e.code < KEY_STATE_SIZE ∧ e.code < down.length ∧ e.code < up.length) →
      ∃ ks steps, processBatch system down up initialKeyStates events = some (ks, steps) ∧
        ks.length = KEY_STATE_SIZE ∧
        ∀ c < KEY_STATE_SIZE,
          (ks[c]? = some 0 ∨ ks[c]? = some 1) ∧
          (∀ v, lastValue c events = some v → (ks[c]? = some 1 ↔ v ≠ 0)) ∧
          (lastValue c events = none → ks[c]? = some 0)) := by
  have key : ∀ events : List input_event,
      (∀ e ∈ events, e.type = EV_KEY →
        e.code < KEY_STATE_SIZE ∧ e.code < down.length ∧ e.code < up.length) →
      ∃ ks steps, processBatch system down up initialKeyStates events = some (ks, steps) ∧
        ks.length = KEY_STATE_SIZE ∧
        ∀ c < KEY_STATE_SIZE,
          (ks[c]? = some 0 ∨ ks[c]? = some 1) ∧
          (∀ v, lastValue c events = some v → (ks[c]? = some 1 ↔ v ≠ 0)) ∧
          (lastValue c events = none → ks[c]? = some 0) := by
    intro events hev
    obtain ⟨ks, steps, hp, hlen, hlast⟩ :=
      processBatch_last system down up events initialKeyStates initialKeyStates_length
        (fun c hc => Or.inl (initialKeyStates_get c hc)) hev
    refine ⟨ks, steps, hp, hlen, fun c hc => ?_⟩
    have h := hlast c hc
    cases hl : lastValue c events with
    | none =>
      rw [hl] at h
      simp only at h
      rw [h, initialKeyStates_get c hc]
      exact ⟨Or.inl rfl, fun v hv => by simp at hv, fun _ => rfl⟩
    | some w =>
      rw [hl] at h
      simp only at h
      rw [h]
      by_cases hw : w ≠ 0
      · rw [if_pos hw]
        refine ⟨Or.inr rfl, fun v hv => ?_, fun hn => by simp at hn⟩
        simp only [Option.some.injEq] at hv
        subst hv
        simp [hw]
      · rw [if_neg hw]
        refine ⟨Or.inl rfl, fun v hv => ?_, fun hn => by simp at hn⟩
        simp only [Option.some.injEq] at hv
        subst hv
        simp [not_not.1 hw]
  refine ⟨?_, key⟩
  obtain ⟨ks, steps, hp, hlen, hall⟩ := key (visited reads) (fun e he => by
    obtain ⟨r, hr, her⟩ := mem_visited reads e he
    exact hin r hr e her)
  obtain ⟨l, hl, hks, hsteps, _⟩ :=
    event_loop_of_visited system down up fd reads initialKeyStates (ks, steps) hp
  refine ⟨l, hl, ?_, ?_, ?_⟩
  · rw [hsteps]
    exact processBatch_records system down up (visited reads) initialKeyStates (ks, steps) hp
  · rw [hks]; exact hlen
  · rw [hks]; exact hall

set_option maxRecDepth 100000 in
/-- Witness of C17: the tables of `g600.c`; scancode 79 is pressed in one read, repeated
in the next together with a press of 81, released in a short read (discarded) and
released again in a full read. -/
theorem key_state_is_last_value_witness :
    ∃ l, event_loop (fun _ => 0) downCommands upCommands 3 initialKeyStates
        [⟨48, [⟨EV_KEY, 79, 1⟩, ⟨0, 0, 0⟩]⟩, ⟨48, [⟨EV_KEY, 79, 2⟩, ⟨EV_KEY, 81, 1⟩]⟩,
          ⟨24, [⟨EV_KEY, 81, 0⟩]⟩, ⟨48, [⟨EV_KEY, 79, 0⟩, ⟨0, 0, 0⟩]⟩] = some l ∧
      l.steps.map (fun s => s.ev) = visited
        [⟨48, [⟨EV_KEY, 79, 1⟩, ⟨0, 0, 0⟩]⟩, ⟨48, [⟨EV_KEY, 79, 2⟩, ⟨EV_KEY, 81, 1⟩]⟩,
          ⟨24, [⟨EV_KEY, 81, 0⟩]⟩, ⟨48, [⟨EV_KEY, 79, 0⟩, ⟨0, 0, 0⟩]⟩] ∧
      l.keyStates.length = KEY_STATE_SIZE ∧
      ∀ c < KEY_STATE_SIZE,
        (l.keyStates[c]? = some 0 ∨ l.keyStates[c]? = some 1) ∧
        (∀ v, lastValue c (visited
            [⟨48, [⟨EV_KEY, 79, 1⟩, ⟨0, 0, 0⟩]⟩, ⟨48, [⟨EV_KEY, 79, 2⟩, ⟨EV_KEY, 81, 1⟩]⟩,
              ⟨24, [⟨EV_KEY, 81, 0⟩]⟩, ⟨48, [⟨EV_KEY, 79, 0⟩, ⟨0, 0, 0⟩]⟩]) = some v →
          (l.keyStates[c]? = some 1 ↔ v ≠ 0)) ∧
        (lastValue c (visited
            [⟨48, [⟨EV_KEY, 79, 1⟩, ⟨0, 0, 0⟩]⟩, ⟨48, [⟨EV_KEY, 79, 2⟩, ⟨EV_KEY, 81, 1⟩]⟩,
              ⟨24, [⟨EV_KEY, 81, 0⟩]⟩, ⟨48, [⟨EV_KEY, 79, 0⟩, ⟨0, 0, 0⟩]⟩]) = none →
          l.keyStates[c]? = some 0) :=
  (key_state_is_last_value (fun _ => 0) downCommands upCommands 3 _ (by decide)).1

end G600
